import Mathlib

/-!
# CookGenie backend: favorites store and proxy endpoints

A shallow embedding of `backend/src/server.js`.  Each Express handler is a pure function
from its request, the state it can touch (the favorites table, the upload directory) and
the answers of the services it calls, to the HTTP response it sends together with the new
state and the list of outbound calls it made.

Request bodies and upstream payloads are JSON; they are embedded as records whose fields
are `Option`s, `none` standing for a field that is absent (`undefined`) or `null`.
`console.log` / `console.error` output is not part of the embedding.
-/

namespace CookGenie

/-! ## JavaScript truthiness -/

/-- Truthiness of a JSON field holding a string: absent, null and the empty string are falsy. -/
def truthyStr : Option String → Bool
  | none => false
  | some s => s != ""

/-- Truthiness of a JSON field holding an integer: absent, null and zero are falsy. -/
def truthyInt : Option Int → Bool
  | none => false
  | some n => n != 0

/-! ## JavaScript numbers

Numbers that arrive in a JSON payload are finite binary64 values.  They are embedded as
a sign, a natural mantissa and a binary exponent, so that products are exact integers and
the only rounding is the one IEEE 754 prescribes for the result of an operation. -/

/-- A finite binary64 value `± mant * 2 ^ exp`. -/
structure F64 where
  neg : Bool
  mant : Nat
  exp : Int
deriving DecidableEq, Repr

/-- The mantissa with its sign. -/
def F64.signedMant (x : F64) : Int := if x.neg then -(x.mant : Int) else x.mant

/-- The rational number a binary64 value denotes. -/
def F64.toRat (x : F64) : ℚ := (x.signedMant : ℚ) * (2 : ℚ) ^ x.exp

/-- The signed mantissa of `x` rescaled to the exponent `m`, for `m ≤ x.exp`. -/
def F64.scaled (x : F64) (m : Int) : Int := x.signedMant * 2 ^ (x.exp - m).toNat

/-- The comparison `a < b` of two finite numbers: exact, on a common exponent. -/
def F64.lt (a b : F64) : Bool :=
  decide (a.scaled (min a.exp b.exp) < b.scaled (min a.exp b.exp))

/-- The result of an arithmetic operation on finite numbers: finite, or an infinity. -/
inductive JSNumber where
  | finite (x : F64)
  | infinite (neg : Bool)
deriving DecidableEq, Repr

/-- Bit length by repeated halving; the first argument bounds the number of steps. -/
def bitLengthAux : Nat → Nat → Nat
  | 0, _ => 0
  | fuel + 1, n => if n = 0 then 0 else bitLengthAux fuel (n / 2) + 1

/-- Number of binary digits of `n` (`0` for `0`). -/
def bitLength (n : Nat) : Nat := bitLengthAux n n

/-- The integer nearest to `m / 2 ^ k`, a tie going to the even neighbour. -/
def roundHalfEven (m k : Nat) : Nat :=
  let q := m / 2 ^ k
  let r := m % 2 ^ k
  if 2 ^ k < 2 * r then q + 1
  else if 2 * r = 2 ^ k then q + q % 2
  else q

/-- Rounding of the exact value `± m * 2 ^ e` to binary64, round-to-nearest-even: the
mantissa keeps at most 53 bits, the exponent does not go below `-1074` (gradual
underflow), and a result of magnitude `2 ^ 1024` or more, that is one whose leading bit
has weight `2 ^ 1024` or more, is an infinity.  A mantissa that rounds up to `2 ^ 53` is
left as it is; it denotes the binary64 value `2 ^ 52 * 2 ^ (e + 1)`. -/
def roundBinary64 (neg : Bool) (m : Nat) (e : Int) : JSNumber :=
  let k : Nat := (max ((bitLength m : Int) - 53) (-1074 - e)).toNat
  let m2 := roundHalfEven m k
  let e2 : Int := e + k
  if m2 ≠ 0 ∧ 1024 < (bitLength m2 : Int) + e2 then .infinite neg
  else .finite ⟨neg, m2, e2⟩

/-- The product `a * b` of two finite numbers. -/
def F64.mul (a b : F64) : JSNumber :=
  roundBinary64 (a.neg != b.neg) (a.mant * b.mant) (a.exp + b.exp)

/-- The result of `Math.round`: an integer, or the infinity it was given. -/
inductive JSRounded where
  | int (n : Int)
  | infinite (neg : Bool)
deriving DecidableEq, Repr

/-- The builtin `Math.round`: the nearest integer, a tie going up, that is the floor of
`x + 1/2` (a negative zero is not told apart from zero). -/
def mathRound : JSNumber → JSRounded
  | .finite x =>
    if 0 ≤ x.exp then .int (x.signedMant * 2 ^ x.exp.toNat)
    else .int ((2 * x.signedMant + 2 ^ (-x.exp).toNat) / (2 * 2 ^ (-x.exp).toNat))
  | .infinite s => .infinite s

/-- The literal `0.5`. -/
def F64.half : F64 := ⟨false, 1, -1⟩

/-- The literal `100`. -/
def F64.hundred : F64 := ⟨false, 25, 2⟩

/-- The integer a finite number denotes, if it denotes one. -/
def F64.toInt? (x : F64) : Option Int :=
  if 0 ≤ x.exp then some (x.signedMant * 2 ^ x.exp.toNat)
  else if x.signedMant % 2 ^ (-x.exp).toNat = 0 then
    some (x.signedMant / 2 ^ (-x.exp).toNat)
  else none

/-- The number `q` rounded to binary64, round-to-nearest-even, before any overflow to an
infinity: `y` has at most 53 significant bits and an exponent of at least `-1074`, lies
within half a unit in the last place of `q`, has an even mantissa when it lies exactly
half a unit away, and its last place is as fine as the format allows (it is exact, or
uses all 53 bits, or sits at the least exponent). -/
def NearestBinary64 (q : ℚ) (y : F64) : Prop :=
  y.mant ≤ 2 ^ 53 ∧ -1074 ≤ y.exp ∧ |y.toRat - q| ≤ (2 : ℚ) ^ y.exp / 2 ∧
  (|y.toRat - q| = (2 : ℚ) ^ y.exp / 2 → Even y.mant) ∧
  (y.toRat = q ∨ 2 ^ 52 ≤ y.mant ∨ y.exp = -1074)

/-- The value `Math.round(score * 100)` of a positive score, said without the code: the
product is rounded to binary64, a result of `2 ^ 1024` or more being the infinity, and
the rounded product is then rounded to the nearest integer, a tie going up. -/
def IsRoundedPercent (score : ℚ) (c : JSRounded) : Prop :=
  ∃ y : F64, NearestBinary64 (score * 100) y ∧
    ((y.toRat < (2 : ℚ) ^ (1024 : Nat) ∧ c = .int ⌊y.toRat + 1 / 2⌋) ∨
      ((2 : ℚ) ^ (1024 : Nat) ≤ y.toRat ∧ c = .infinite false))

/-! ## The favorites store -/

/-- Modelled from the spec: `db/schema.js` (the declaration of `favoritesTable`) is not
among the sources.  A row has the columns of the spec's `Favorite`; `id` is assigned by the
store and `createdAt` is the store's clock reading at creation. -/
structure Favorite where
  id : Nat
  userId : String
  recipeId : Int
  title : String
  image : Option String
  cookTime : Option Int
  servings : Option Int
  createdAt : Nat
deriving DecidableEq, Repr

/-- Modelled from the spec: the persisted table, rows in insertion order, with the counter
from which the store assigns the next `id`. -/
structure FavoritesTable where
  rows : List Favorite
  nextId : Nat
deriving DecidableEq, Repr

/-- Every stored id was handed out by the counter, and no id is stored twice. -/
def FavoritesTable.WellFormed (t : FavoritesTable) : Prop :=
  (∀ r ∈ t.rows, r.id < t.nextId) ∧ (t.rows.map Favorite.id).Nodup

/-- The table of a fresh database. -/
def FavoritesTable.empty : FavoritesTable := ⟨[], 1⟩

/-- The values object handed to `db.insert(favoritesTable).values(...)`. -/
structure FavoriteValues where
  userId : String
  recipeId : Int
  title : String
  image : Option String
  cookTime : Option Int
  servings : Option Int
deriving DecidableEq, Repr

/-- Modelled from the spec: `db.insert(favoritesTable).values(v).returning()`.  `fault` is
the error the store raises for this statement, if any; a failed statement writes nothing.
Otherwise the row gets the next id and the current time, is appended, and is returned. -/
def dbInsertReturning (fault : Option String) (now : Nat) (t : FavoritesTable)
    (v : FavoriteValues) : Except String (FavoritesTable × Favorite) :=
  match fault with
  | some e => .error e
  | none =>
    let row : Favorite :=
      ⟨t.nextId, v.userId, v.recipeId, v.title, v.image, v.cookTime, v.servings, now⟩
    .ok (⟨t.rows ++ [row], t.nextId + 1⟩, row)

/-- Modelled from the spec: `db.select().from(favoritesTable).where(eq(userId, u))`. -/
def dbSelectByUser (fault : Option String) (t : FavoritesTable) (u : String) :
    Except String (List Favorite) :=
  match fault with
  | some e => .error e
  | none => .ok (t.rows.filter (fun r => r.userId == u))

/-- Modelled from the spec: the value the store reads from a JavaScript number compared
with the integer column `recipeId`.  `none` is `NaN`; `NaN`, the infinities and numbers
that are not integers are no input for an integer column.  The width of the column is in
the absent schema and is not modelled. -/
def integerKey : Option JSNumber → Option Int
  | some (.finite x) => x.toInt?
  | _ => none

/-- Modelled from the spec:
`db.delete(favoritesTable).where(and(eq(userId, u), eq(recipeId, n)))`.  The key `n` is the
JavaScript number the handler computed; a key that is no integer is rejected. -/
def dbDeleteWhere (fault : Option String) (t : FavoritesTable) (u : String)
    (n : Option JSNumber) : Except String FavoritesTable :=
  match fault with
  | some e => .error e
  | none =>
    match integerKey n with
    | none => .error "invalid input for type integer"
    | some k => .ok ⟨t.rows.filter (fun r => !(r.userId == u && r.recipeId == k)), t.nextId⟩

/-! ## `parseInt` -/

/-- The code points JavaScript treats as white space or line terminators. -/
def isJsWhiteSpace (c : Char) : Bool :=
  let n := c.toNat
  n = 9 || n = 10 || n = 11 || n = 12 || n = 13 || n = 32 || n = 160 || n = 0x1680 ||
  (0x2000 ≤ n && n ≤ 0x200A) || n = 0x2028 || n = 0x2029 || n = 0x202F || n = 0x205F ||
  n = 0x3000 || n = 0xFEFF

/-- Value of a character as a digit in the given radix, if it is one. -/
def digitValue (radix : Nat) (c : Char) : Option Nat :=
  let n := c.toNat
  let v : Option Nat :=
    if 48 ≤ n ∧ n ≤ 57 then some (n - 48)
    else if 97 ≤ n ∧ n ≤ 122 then some (n - 87)
    else if 65 ≤ n ∧ n ≤ 90 then some (n - 55)
    else none
  match v with
  | some d => if d < radix then some d else none
  | none => none

/-- The longest run of digits of the radix at the head of the input. -/
def takeDigits (radix : Nat) : List Char → List Nat
  | [] => []
  | c :: cs =>
    match digitValue radix c with
    | some d => d :: takeDigits radix cs
    | none => []

/-- The optional sign at the head of the input: whether it is a minus, and the rest. -/
def stripSign : List Char → Bool × List Char
  | '-' :: r => (true, r)
  | '+' :: r => (false, r)
  | cs => (false, cs)

/-- The radix selected by an optional `0x` / `0X` marker, and the rest. -/
def stripRadix : List Char → Nat × List Char
  | '0' :: 'x' :: r => (16, r)
  | '0' :: 'X' :: r => (16, r)
  | cs => (10, cs)

/-- The builtin `parseInt(s)` called without a radix: leading white space is skipped, an
optional sign is read, a `0x` / `0X` marker selects radix 16, and the longest run of digits
is read as an integer; `none` is `NaN` (no digit could be read).  The result is a Number:
the integer rounded to binary64, an infinity when it is `2 ^ 1024` or more. -/
def parseInt (s : String) : Option JSNumber :=
  let signed := stripSign (s.toList.dropWhile isJsWhiteSpace)
  let based := stripRadix signed.2
  let ds := takeDigits based.1 based.2
  if ds.isEmpty then none
  else some (roundBinary64 signed.1 (ds.foldl (fun a d => a * based.1 + d) 0) 0)

/-- Decimal digits of a natural number, most significant first. -/
def natDecimal (n : Nat) : List Char :=
  if n = 0 then ['0'] else (Nat.digits 10 n).reverse.map fun d => Char.ofNat (48 + d)

/-- The decimal text of an integer, as it appears in a request path. -/
def intDecimal (z : Int) : String :=
  String.mk (if z < 0 then '-' :: natDecimal z.natAbs else natDecimal z.natAbs)

/-! ## Favorites handlers -/

/-- The JSON body of `POST /api/favorites`. -/
structure AddBody where
  userId : Option String
  recipeId : Option Int
  title : Option String
  image : Option String
  cookTime : Option Int
  servings : Option Int
deriving DecidableEq, Repr

/-- The JSON bodies the favorites handlers send. -/
inductive FavBody where
  | error (error : String)
  | favorite (row : Favorite)
  | favorites (rows : List Favorite)
  | message (message : String)
deriving DecidableEq, Repr

/-- What a favorites handler did: the response and the table it leaves behind. -/
structure FavResult where
  status : Nat
  body : FavBody
  table : FavoritesTable
deriving DecidableEq, Repr

/-- Handler of `POST /api/favorites`. -/
def postFavorites (fault : Option String) (now : Nat) (t : FavoritesTable)
    (body : AddBody) : FavResult :=
  if !truthyStr body.userId || !truthyInt body.recipeId || !truthyStr body.title then
    ⟨400, .error "Missing required fields", t⟩
  else
    match body.userId, body.recipeId, body.title with
    | some userId, some recipeId, some title =>
      match dbInsertReturning fault now t
          ⟨userId, recipeId, title, body.image, body.cookTime, body.servings⟩ with
      | .ok (t2, newFavorite) => ⟨201, .favorite newFavorite, t2⟩
      | .error _ => ⟨500, .error "Something went wrong", t⟩
    | _, _, _ => ⟨400, .error "Missing required fields", t⟩

/-- Handler of `GET /api/favorites/:userId`. -/
def getFavorites (fault : Option String) (t : FavoritesTable) (userId : String) :
    FavResult :=
  match dbSelectByUser fault t userId with
  | .ok userFavorites => ⟨200, .favorites userFavorites, t⟩
  | .error _ => ⟨500, .error "Something went wrong", t⟩

/-- Handler of `DELETE /api/favorites/:userId/:recipeId`; both parameters are path
segments, hence strings. -/
def deleteFavorite (fault : Option String) (t : FavoritesTable) (userId : String)
    (recipeId : String) : FavResult :=
  match dbDeleteWhere fault t userId (parseInt recipeId) with
  | .ok t2 => ⟨200, .message "Favorite removed successfully", t2⟩
  | .error _ => ⟨500, .error "Something went wrong", t⟩

/-! ## Strings and URLs -/

/-- A template literal renders an undefined value as the text `undefined`. -/
def templateText : Option String → String
  | none => "undefined"
  | some s => s

/-- Characters `encodeURIComponent` leaves as they are: ASCII letters, digits and
`- _ . ! ~ * ( )` and the apostrophe (code 39). -/
def isUriUnreserved (c : Char) : Bool :=
  let n := c.toNat
  (48 ≤ n && n ≤ 57) || (65 ≤ n && n ≤ 90) || (97 ≤ n && n ≤ 122) ||
  n = 45 || n = 95 || n = 46 || n = 33 || n = 126 || n = 42 || n = 39 || n = 40 || n = 41

/-- UTF-8 encoding of a code point. -/
def utf8Bytes (c : Char) : List Nat :=
  let n := c.toNat
  if n < 0x80 then [n]
  else if n < 0x800 then [0xC0 + n / 64, 0x80 + n % 64]
  else if n < 0x10000 then [0xE0 + n / 4096, 0x80 + n / 64 % 64, 0x80 + n % 64]
  else [0xF0 + n / 262144, 0x80 + n / 4096 % 64, 0x80 + n / 64 % 64, 0x80 + n % 64]

/-- Upper-case hexadecimal digit. -/
def hexDigit (d : Nat) : Char :=
  if d < 10 then Char.ofNat (48 + d) else Char.ofNat (55 + d)

/-- A byte as a percent escape. -/
def percentEscape (b : Nat) : List Char := ['%', hexDigit (b / 16), hexDigit (b % 16)]

/-- The builtin `encodeURIComponent`.  A `String` is a sequence of Unicode scalar values,
so the lone surrogates on which the builtin throws cannot occur. -/
def encodeURIComponent (s : String) : String :=
  String.mk (s.toList.flatMap fun c =>
    if isUriUnreserved c then [c] else (utf8Bytes c).flatMap percentEscape)

/-! ## Upstream services -/

/-- What axios throws when a request fails (network error or a non-2xx status). -/
structure UpstreamError where
  message : String
  responseData : Option String
deriving DecidableEq, Repr

/-- A request the server sends to a third-party service. -/
inductive OutboundCall where
  | geminiGenerate (url : String) (message : String)
  | visionAnnotate (url : String) (image : List UInt8)
  | httpGet (url : String)
deriving DecidableEq, Repr

/-- A label of the label-detection service. -/
structure Label where
  description : String
  score : F64
deriving DecidableEq, Repr

/-- One element of `responses` in a Vision payload. -/
structure AnnotateResponse where
  labelAnnotations : Option (List Label)
deriving DecidableEq, Repr

/-- The payload of the Vision reply; `responses = none` is a payload without that array. -/
structure VisionData where
  responses : Option (List (Option AnnotateResponse))
deriving DecidableEq, Repr

/-- An ingredient object inside a recipe-search match. -/
structure MatchIngredient where
  name : Option String
deriving DecidableEq, Repr

/-- One match of the recipe-search reply. -/
structure SearchMatch where
  id : Option Int
  title : Option String
  image : Option String
  usedIngredients : Option (List (Option MatchIngredient))
  missedIngredients : Option (List (Option MatchIngredient))
deriving DecidableEq, Repr

/-- The payload of the recipe-search reply: `none` when it is not an array; a `none`
element is a `null` in the array. -/
abbrev SearchData := Option (List (Option SearchMatch))

/-- The `DetectedIngredient` of the response. -/
structure DetectedIngredient where
  name : String
  confidence : JSRounded
deriving DecidableEq, Repr

/-- The `RecipeSummary` of the response. -/
structure RecipeSummary where
  id : Option Int
  title : Option String
  image : Option String
  usedIngredients : List (Option String)
  missedIngredients : List (Option String)
deriving DecidableEq, Repr

/-- The callback `i => i.name` mapped over an ingredient array; `none` is the `TypeError`
of mapping something that is not an array or of reading `name` of `null`. -/
def ingredientNames : Option (List (Option MatchIngredient)) → Option (List (Option String))
  | none => none
  | some l => l.mapM fun i => i.map MatchIngredient.name

/-- The callback that projects one match into a `RecipeSummary`; `none` is a `TypeError`. -/
def projectRecipe : Option SearchMatch → Option RecipeSummary
  | none => none
  | some recipe =>
    match ingredientNames recipe.usedIngredients, ingredientNames recipe.missedIngredients with
    | some used, some missed => some ⟨recipe.id, recipe.title, recipe.image, used, missed⟩
    | _, _ => none

/-- The expression `spoonacularRes.data.map(recipe => ...)`; `none` is a `TypeError`. -/
def projectRecipes : SearchData → Option (List RecipeSummary)
  | none => none
  | some l => l.mapM projectRecipe

/-- The expression `visionRes.data.responses[0]?.labelAnnotations || []`; `none` is the
`TypeError` of indexing a missing `responses`. -/
def labelsOf (data : VisionData) : Option (List Label) :=
  match data.responses with
  | none => none
  | some [] => some []
  | some (none :: _) => some []
  | some (some r :: _) =>
    match r.labelAnnotations with
    | none => some []
    | some labels => some labels

/-- The filter and map that turn labels into ingredients. -/
def detectIngredients (labels : List Label) : List DetectedIngredient :=
  (labels.filter fun label => F64.lt F64.half label.score).map fun label =>
    ⟨label.description, mathRound (F64.mul label.score F64.hundred)⟩

/-! ## The upload directory -/

/-- The files in `uploads/`: path and content. -/
abbrev Uploads := List (String × List UInt8)

/-- The call `fs.readFileSync(path)`; `none` when it throws because no such file exists. -/
def readFileSync (fs : Uploads) (path : String) : Option (List UInt8) :=
  fs.lookup path

/-- The call `fs.unlinkSync(path)`; `none` when it throws because no such file exists. -/
def unlinkSync (fs : Uploads) (path : String) : Option Uploads :=
  if fs.any (fun f => f.1 == path) then some (fs.filter fun f => !(f.1 == path)) else none

/-! ## The ingredient-recognition handler -/

/-- What the handler of `/api/analyze-ingredients` reads from its surroundings: the two
keys of the process environment and the answers of the two services to a given request. -/
structure AnalyzeEnv where
  visionKey : Option String
  spoonacularKey : Option String
  visionPost : String → List UInt8 → Except UpstreamError VisionData
  httpGet : String → Except UpstreamError SearchData

/-- The JSON bodies the handler sends. -/
inductive AnalyzeBody where
  | failure (message : String)
  | success (ingredients : List DetectedIngredient) (recipes : List RecipeSummary)
deriving DecidableEq, Repr

/-- What the handler did: the response, the upload directory it leaves behind, and the
outbound calls it made, in order. -/
structure AnalyzeResult where
  status : Nat
  body : AnalyzeBody
  uploads : Uploads
  calls : List OutboundCall
deriving DecidableEq, Repr

/-- The `catch` block of the handler. -/
def analyzeFailed (fs : Uploads) (calls : List OutboundCall) : AnalyzeResult :=
  ⟨500, .failure "Failed to analyze image or fetch recipes", fs, calls⟩

/-- The URL of the label-detection request. -/
def visionAnnotateUrl (apiKey : Option String) : String :=
  "https://vision.googleapis.com/v1/images:annotate?key=" ++ templateText apiKey

/-- The URL of the recipe search the pipeline issues for a joined ingredient list. -/
def pipelineSearchUrl (ingredientsList : String) (spoonacularKey : String) : String :=
  "https://api.spoonacular.com/recipes/findByIngredients?ingredients=" ++
    encodeURIComponent ingredientsList ++ "&number=5&apiKey=" ++ spoonacularKey

/-- Handler of `POST /api/analyze-ingredients`.  `file` is `req.file.path` as left by the
upload middleware, which has stored the image in `fs` before the handler runs.  The image
content of the Vision request is the base64 text of the bytes recorded in the call. -/
def analyzeIngredients (env : AnalyzeEnv) (fs : Uploads) (file : Option String) :
    AnalyzeResult :=
  match file with
  | none => ⟨400, .failure "No image uploaded", fs, []⟩
  | some imagePath =>
    match readFileSync fs imagePath with
    | none => analyzeFailed fs []
    | some imageBuffer =>
      let visionUrl := visionAnnotateUrl env.visionKey
      let visionCall := OutboundCall.visionAnnotate visionUrl imageBuffer
      match env.visionPost visionUrl imageBuffer with
      | .error _ => analyzeFailed fs [visionCall]
      | .ok data =>
        match unlinkSync fs imagePath with
        | none => analyzeFailed fs [visionCall]
        | some fs2 =>
          match labelsOf data with
          | none => analyzeFailed fs2 [visionCall]
          | some labels =>
            let ingredients := detectIngredients labels
            let ingredientsList := ",".intercalate (ingredients.map DetectedIngredient.name)
            if ingredientsList != "" && truthyStr env.spoonacularKey then
              let spoonacularUrl :=
                pipelineSearchUrl ingredientsList (templateText env.spoonacularKey)
              let calls := [visionCall, OutboundCall.httpGet spoonacularUrl]
              match env.httpGet spoonacularUrl with
              | .error _ => analyzeFailed fs2 calls
              | .ok searchData =>
                match projectRecipes searchData with
                | none => analyzeFailed fs2 calls
                | some recipes => ⟨200, .success ingredients recipes, fs2, calls⟩
            else ⟨200, .success ingredients [], fs2, [visionCall]⟩

/-- The label-detection call failed: the request was rejected, or the payload has no
`responses` array to read the labels from. -/
def visionCallFails : Except UpstreamError VisionData → Bool
  | .error _ => true
  | .ok data => (labelsOf data).isNone

/-- The recipe-search call failed: the request was rejected, or the payload is one the
projection cannot read. -/
def searchCallFails : Except UpstreamError SearchData → Bool
  | .error _ => true
  | .ok data => (projectRecipes data).isNone

/-! ## The chatbot handler -/

/-- A part of a candidate's content. -/
structure GeminiPart where
  text : Option String
deriving DecidableEq, Repr

/-- The content of a candidate. -/
structure GeminiContent where
  parts : Option (List (Option GeminiPart))
deriving DecidableEq, Repr

/-- A candidate of the conversational reply. -/
structure GeminiCandidate where
  content : Option GeminiContent
deriving DecidableEq, Repr

/-- The payload of the conversational reply. -/
structure GeminiData where
  candidates : Option (List (Option GeminiCandidate))
deriving DecidableEq, Repr

/-- The payload of a reply of the conversational service, as axios hands it over: the
JSON value `null`, a JSON object, or anything else (a text or empty body, a number, a
boolean, an array), which has no `candidates` property. -/
inductive GeminiPayload where
  | null
  | other
  | object (data : GeminiData)
deriving DecidableEq, Repr

/-- What the chatbot handler reads from its surroundings: the key of the process
environment and the answer of the conversational service to a given request. -/
structure ChatEnv where
  geminiKey : Option String
  geminiPost : String → String → Except UpstreamError GeminiPayload

/-- The JSON bodies the chatbot handler sends. -/
inductive ChatBody where
  | error (error : String)
  | reply (reply : String)
deriving DecidableEq, Repr

/-- What the chatbot handler did: the response and the outbound calls it made. -/
structure ChatResult where
  status : Nat
  body : ChatBody
  calls : List OutboundCall
deriving DecidableEq, Repr

/-- The expression `data.candidates?.[0]?.content?.parts?.[0]?.text`. -/
def firstCandidateText (data : GeminiData) : Option String :=
  ((((data.candidates.bind List.head?).join.bind GeminiCandidate.content).bind
    GeminiContent.parts).bind List.head?).join.bind GeminiPart.text

/-- The property `data.candidates` of the payload: reading it off `null` throws a
`TypeError` (`none`); a value that is no object has no such property. -/
def payloadCandidates : GeminiPayload → Option GeminiData
  | .null => none
  | .other => some ⟨none⟩
  | .object data => some data

/-- Handler of `POST /api/chatbot`. -/
def chatbot (env : ChatEnv) (message : Option String) : ChatResult :=
  if !truthyStr message then ⟨400, .error "Message is required", []⟩
  else
    let text := templateText message
    let geminiUrl :=
      "https://generativelanguage.googleapis.com/v1beta/models/gemini-2.5-flash:generateContent?key="
        ++ templateText env.geminiKey
    let call := OutboundCall.geminiGenerate geminiUrl text
    match env.geminiPost geminiUrl text with
    | .error _ => ⟨500, .error "Failed to get response from Gemini", [call]⟩
    | .ok payload =>
      match payloadCandidates payload with
      | none => ⟨500, .error "Failed to get response from Gemini", [call]⟩
      | some data =>
        let extracted := firstCandidateText data
        let geminiReply :=
          if truthyStr extracted then templateText extracted
          else "Sorry, I couldn't understand that."
        ⟨200, .reply geminiReply, [call]⟩

/-- The URL of the conversational request, as the chatbot handler builds it. -/
def geminiUrl (apiKey : Option String) : String :=
  "https://generativelanguage.googleapis.com/v1beta/models/gemini-2.5-flash:generateContent?key="
    ++ templateText apiKey

/-- The first candidate has a content whose first part has the text `t`. -/
def FirstTextPart (data : GeminiData) (t : String) : Prop :=
  ∃ c cs ct p ps, data.candidates = some (some c :: cs) ∧ c.content = some ct ∧
    ct.parts = some (some p :: ps) ∧ p.text = some t

/-! ## The recipe-search handler -/

/-- The `ingredients` field of the body of `POST /api/recipes-by-ingredients`: absent, a
JSON value that is not an array, or an array of names. -/
inductive IngredientsField where
  | absent
  | null
  | bool (b : Bool)
  | number (n : Int)
  | string (s : String)
  | object
  | array (items : List String)
deriving DecidableEq, Repr

/-- Truthiness of the field: absent, `null`, `false`, zero and the empty string are falsy;
objects and arrays, the empty array included, are truthy. -/
def IngredientsField.truthy : IngredientsField → Bool
  | .absent => false
  | .null => false
  | .bool b => b
  | .number n => n != 0
  | .string s => s != ""
  | .object => true
  | .array _ => true

/-- The test `Array.isArray`, with the elements when it holds. -/
def IngredientsField.asArray : IngredientsField → Option (List String)
  | .array items => some items
  | _ => none

/-- The JSON bodies the recipe-search handler sends. -/
inductive SearchBody where
  | failure (message : String)
  | success (recipes : List RecipeSummary)
deriving DecidableEq, Repr

/-- What the recipe-search handler did: the response and the outbound calls it made. -/
structure SearchResult where
  status : Nat
  body : SearchBody
  calls : List OutboundCall
deriving DecidableEq, Repr

/-- The query parameter `ingredients.map(encodeURIComponent).join(",")`. -/
def ingredientsParam (ingredients : List String) : String :=
  ",".intercalate (ingredients.map encodeURIComponent)

/-- The URL the recipe-search handler requests. -/
def searchUrl (ingredients : List String) (apiKey : Option String) : String :=
  "https://api.spoonacular.com/recipes/findByIngredients?ingredients=" ++
    ingredientsParam ingredients ++ "&number=5&apiKey=" ++ templateText apiKey

/-- Handler of `POST /api/recipes-by-ingredients`.  `apiKey` is the key of the process
environment and `httpGet` the answer of the recipe-search service to a given URL. -/
def recipesByIngredients (apiKey : Option String)
    (httpGet : String → Except UpstreamError SearchData) (ingredients : IngredientsField) :
    SearchResult :=
  match ingredients.asArray with
  | none => ⟨400, .failure "Ingredients array is required", []⟩
  | some items =>
    if !ingredients.truthy || items.length == 0 then
      ⟨400, .failure "Ingredients array is required", []⟩
    else
      let spoonacularUrl := searchUrl items apiKey
      match httpGet spoonacularUrl with
      | .error _ => ⟨500, .failure "Failed to fetch recipes", [.httpGet spoonacularUrl]⟩
      | .ok data =>
        match projectRecipes data with
        | none => ⟨500, .failure "Failed to fetch recipes", [.httpGet spoonacularUrl]⟩
        | some recipes => ⟨200, .success recipes, [.httpGet spoonacularUrl]⟩

/-- A match of a well-formed search response: `id`, `title`, `image` and the names of its
used and missed ingredients. -/
structure WellFormedMatch where
  id : Int
  title : String
  image : String
  usedIngredients : List String
  missedIngredients : List String
deriving DecidableEq, Repr

/-- The JSON of a well-formed match: every field present, every ingredient an object
with a name. -/
def WellFormedMatch.toJson (m : WellFormedMatch) : SearchMatch :=
  ⟨some m.id, some m.title, some m.image,
    some (m.usedIngredients.map fun n => some ⟨some n⟩),
    some (m.missedIngredients.map fun n => some ⟨some n⟩)⟩

/-- The payload of a well-formed search response. -/
def wellFormedPayload (ms : List WellFormedMatch) : SearchData :=
  some (ms.map fun m => some m.toJson)

/-- The `RecipeSummary` the spec assigns to a well-formed match: `id`, `title` and `image`
copied, the ingredient lists replaced by the lists of their names. -/
def summaryOf (m : WellFormedMatch) : RecipeSummary :=
  ⟨some m.id, some m.title, some m.image, m.usedIngredients.map some,
    m.missedIngredients.map some⟩

/-! ## The recipe-detail handler -/

/-- The JSON bodies the recipe-detail handler sends; the recipe is the upstream payload as
it came, here its JSON text. -/
inductive DetailBody where
  | failure (message : String)
  | success (recipe : String)
deriving DecidableEq, Repr

/-- What the recipe-detail handler did: the response and the outbound calls it made. -/
structure DetailResult where
  status : Nat
  body : DetailBody
  calls : List OutboundCall
deriving DecidableEq, Repr

/-- The URL the recipe-detail handler requests. -/
def recipeDetailUrl (id : String) (apiKey : Option String) : String :=
  "https://api.spoonacular.com/recipes/" ++ id ++
    "/information?includeNutrition=false&apiKey=" ++ templateText apiKey

/-- Handler of `GET /api/recipe-detail/:id`. -/
def recipeDetail (apiKey : Option String) (httpGet : String → Except UpstreamError String)
    (id : String) : DetailResult :=
  match httpGet (recipeDetailUrl id apiKey) with
  | .ok data => ⟨200, .success data, [.httpGet (recipeDetailUrl id apiKey)]⟩
  | .error _ =>
    ⟨500, .failure "Failed to fetch recipe details", [.httpGet (recipeDetailUrl id apiKey)]⟩

/-- Two answers of a downstream service that differ at most in the error raised: both are
errors, or both are the same payload. -/
def sameUpToError {α : Type} (a b : Except UpstreamError α) : Prop :=
  match a, b with
  | .error _, .error _ => True
  | .ok x, .ok y => x = y
  | _, _ => False

/-! ## The recipe detail screen: instructions without tags

`RecipeDetail.jsx` shows `recipe.instructions.replace(/<[^>]+>/g, '')` when
`recipe.instructions` is truthy.  A match of the pattern at a `<` exists exactly when the
next character is not `>` and some `>` follows; it then ends at the first `>`. -/

/-- Number of characters up to and including the first `>`, if there is one. -/
def closeIndex : List Char → Option Nat
  | [] => none
  | d :: ds => if d = '>' then some 1 else (closeIndex ds).map (· + 1)

/-- Length of the match of `[^>]+>` at the head of the input, if it matches. -/
def tagLength : List Char → Option Nat
  | [] => none
  | d :: ds => if d = '>' then none else (closeIndex ds).map (· + 1)

/-- The global replace, scanning left to right: `skip` characters of the current match are
still to be dropped; at a `<` where the pattern matches the whole match is dropped and the
scan resumes after it, any other character is kept. -/
def stripTagsFrom : Nat → List Char → List Char
  | _, [] => []
  | skip + 1, _ :: rest => stripTagsFrom skip rest
  | 0, c :: rest =>
    if c = '<' then
      match tagLength rest with
      | some n => stripTagsFrom n rest
      | none => c :: stripTagsFrom 0 rest
    else c :: stripTagsFrom 0 rest

/-- The expression `instructions.replace(/<[^>]+>/g, '')`. -/
def stripTags (instructions : String) : String :=
  String.mk (stripTagsFrom 0 instructions.toList)

/-- The text of the instructions section, `none` when the section is not rendered. -/
def shownInstructions (instructions : Option String) : Option String :=
  if truthyStr instructions then some (stripTags (templateText instructions)) else none

/-- The input has a substring of the tag form: a `<`, one or more characters other than
`>`, and a `>`. -/
def HasTag (s : List Char) : Prop :=
  ∃ pre body post, s = pre ++ '<' :: body ++ '>' :: post ∧ body ≠ [] ∧ '>' ∉ body

/-- Whether the pattern matches somewhere in the input. -/
def hasTagB : List Char → Bool
  | [] => false
  | c :: rest => (c == '<' && (tagLength rest).isSome) || hasTagB rest

/-! ## Sample inputs -/

instance (t : FavoritesTable) : Decidable t.WellFormed := by
  unfold FavoritesTable.WellFormed
  infer_instance

/-- A table with a duplicated favorite of user `u1` and a favorite of another user. -/
def sampleTable : FavoritesTable :=
  ⟨[⟨1, "u1", 7, "Soup", none, none, none, 10⟩, ⟨2, "u2", 7, "Soup", none, none, none, 11⟩,
    ⟨3, "u1", 7, "Soup again", some "http://img/soup.png", some 5, none, 12⟩,
    ⟨4, "u1", 8, "Cake", none, none, some 4, 13⟩], 5⟩

/-- A complete add request. -/
def sampleAdd : AddBody :=
  ⟨some "u1", some 9, some "Stew", some "http://img/stew.png", some 25, none⟩

/-- The label `apple` with the binary64 score nearest to 0.9. -/
def appleLabel : Label := ⟨"apple", ⟨false, 8106479329266893, -53⟩⟩

/-- The label `blur` with the binary64 score nearest to 0.3. -/
def blurLabel : Label := ⟨"blur", ⟨false, 5404319552844595, -54⟩⟩

/-- A label whose score is exactly one half. -/
def halfLabel : Label := ⟨"plate", ⟨false, 1, -1⟩⟩

/-- An upload directory holding one stored image. -/
def sampleUploads : Uploads := [("uploads/3f2a", [255, 216, 255])]

/-- One match of a recipe search. -/
def sampleMatch : SearchMatch :=
  ⟨some 1, some "Pie", none, some [some ⟨some "apple"⟩], some [some ⟨some "flour"⟩]⟩

/-- Both services answer: the labels apple and blur, and one match. -/
def sampleEnv : AnalyzeEnv :=
  ⟨some "VK", some "SK", fun _ _ => .ok ⟨some [some ⟨some [appleLabel, blurLabel]⟩]⟩,
    fun _ => .ok (some [some sampleMatch])⟩

/-- The label detection finds nothing above one half; the list of the second response is
missing. -/
def lowEnv : AnalyzeEnv :=
  ⟨some "VK", some "SK", fun _ _ => .ok ⟨some [some ⟨some [blurLabel, halfLabel]⟩, some ⟨none⟩]⟩,
    fun _ => .ok (some [some sampleMatch])⟩

/-- The label detection answers, the recipe search is rejected. -/
def searchDownEnv : AnalyzeEnv :=
  ⟨some "VK", some "SK", fun _ _ => .ok ⟨some [some ⟨some [appleLabel, blurLabel]⟩]⟩,
    fun _ => .error ⟨"Request failed with status code 402", some "quota"⟩⟩

/-- A reply of the conversational service whose first candidate says "Hi!". -/
def greetingData : GeminiData := ⟨some [some ⟨some ⟨some [some ⟨some "Hi!"⟩]⟩⟩]⟩

/-- A conversational service that answers with a greeting. -/
def greetingChatEnv : ChatEnv := ⟨some "GK", fun _ _ => .ok (.object greetingData)⟩

/-- Two matches of a well-formed search response. -/
def sampleMatches : List WellFormedMatch :=
  [⟨11, "Omelette", "http://img/omelette.png", ["egg", "milk"], ["butter"]⟩,
    ⟨12, "Custard", "http://img/custard.png", ["egg", "milk"], ["sugar", "vanilla"]⟩]

/-- A conversational service that answers with no candidates. -/
def sampleChatEnv : ChatEnv := ⟨some "GK", fun _ _ => .ok (.object ⟨some []⟩)⟩

/-! ## Numbers: comparison and rounding -/


theorem F64.scaled_cast (x : F64) (m : Int) (h : m ≤ x.exp) :
    ((x.scaled m : Int) : ℚ) * (2 : ℚ) ^ m = x.toRat := by
  unfold F64.scaled F64.toRat
  have h2 : ((x.exp - m).toNat : Int) = x.exp - m := Int.toNat_of_nonneg (by omega)
  have h3 : (2 : ℚ) ^ (x.exp - m).toNat = (2 : ℚ) ^ (x.exp - m) := by
    rw [← h2, zpow_natCast, h2]
  push_cast
  rw [h3, mul_assoc, ← zpow_add₀ (by norm_num : (2 : ℚ) ≠ 0)]
  congr 2
  omega

theorem F64.lt_iff (a b : F64) : F64.lt a b = true ↔ a.toRat < b.toRat := by
  unfold F64.lt
  rw [decide_eq_true_iff, ← F64.scaled_cast a (min a.exp b.exp) (min_le_left _ _),
    ← F64.scaled_cast b (min a.exp b.exp) (min_le_right _ _)]
  have hpos : (0 : ℚ) < (2 : ℚ) ^ (min a.exp b.exp) := zpow_pos (by norm_num) _
  rw [mul_lt_mul_right hpos]
  exact Int.cast_lt.symm

theorem F64.toRat_half : F64.half.toRat = 1 / 2 := by
  norm_num [F64.toRat, F64.half, F64.signedMant]


theorem bitLengthAux_le (fuel : Nat) : ∀ n : Nat, n ≠ 0 → n ≤ fuel →
    2 ^ bitLengthAux fuel n ≤ 2 * n := by
  induction fuel with
  | zero => intro n h0 hle; omega
  | succ f ih =>
    intro n h0 hle
    simp only [bitLengthAux, h0, if_false]
    rw [pow_succ]
    by_cases hz : n / 2 = 0
    · have : bitLengthAux f (n / 2) = 0 := by
        rw [hz]; cases f <;> simp [bitLengthAux]
      rw [this]; omega
    · have := ih (n / 2) hz (by omega)
      omega

theorem bitLengthAux_gt (fuel : Nat) : ∀ n : Nat, n ≤ fuel → n < 2 ^ bitLengthAux fuel n := by
  induction fuel with
  | zero => intro n hle; simp [bitLengthAux]; omega
  | succ f ih =>
    intro n hle
    by_cases h0 : n = 0
    · simp [bitLengthAux, h0]
    · simp only [bitLengthAux, h0, if_false]
      rw [pow_succ]
      have := ih (n / 2) (by omega)
      omega

/-- The bit length is the number of binary digits: `2 ^ (L - 1) ≤ n < 2 ^ L`. -/
theorem bitLength_spec (n : Nat) (h0 : n ≠ 0) :
    2 ^ bitLength n ≤ 2 * n ∧ n < 2 ^ bitLength n :=
  ⟨bitLengthAux_le n n h0 le_rfl, bitLengthAux_gt n n le_rfl⟩

theorem roundHalfEven_le (p k B : Nat) (h : p ≤ B * 2 ^ k) : roundHalfEven p k ≤ B := by
  have hpos : 0 < 2 ^ k := Nat.pos_pow_of_pos k (by norm_num)
  have hdm := Nat.div_add_mod p (2 ^ k)
  have hmod := Nat.mod_lt p hpos
  have hq : p / 2 ^ k ≤ B := by
    calc p / 2 ^ k ≤ (B * 2 ^ k) / 2 ^ k := Nat.div_le_div_right h
      _ = B := Nat.mul_div_cancel _ hpos
  unfold roundHalfEven
  simp only
  by_cases hr : p % 2 ^ k = 0
  · simp [hr, hpos.ne, hpos.ne']
    exact hq
  · have hlt : p / 2 ^ k < B := by
      by_contra hcon
      have hqB : p / 2 ^ k = B := by omega
      rw [hqB] at hdm
      have : 2 ^ k * B = B * 2 ^ k := Nat.mul_comm _ _
      omega
    split
    · omega
    · split
      · have := Nat.mod_lt (p / 2 ^ k) (by norm_num : 0 < 2)
        omega
      · omega

theorem roundHalfEven_ge (p k A : Nat) (h : A * 2 ^ k ≤ p) : A ≤ roundHalfEven p k := by
  have hpos : 0 < 2 ^ k := Nat.pos_pow_of_pos k (by norm_num)
  have hq : A ≤ p / 2 ^ k := (Nat.le_div_iff_mul_le hpos).mpr h
  unfold roundHalfEven
  simp only
  split
  · omega
  · split <;> omega


theorem mathRound_roundBinary64_bounds (m n : Nat) (h1 : m ≤ 2 ^ n) (h2 : 2 ^ n < 2 * m) :
    ∃ c : Int, mathRound (roundBinary64 false (m * 25) (-(n : Int) + 2)) = .int c ∧
      50 ≤ c ∧ c ≤ 100 := by
  rcases Nat.eq_zero_or_pos n with hn | hn
  · subst hn
    have hm : m = 1 := by simp at h1 h2; omega
    subst hm
    exact ⟨100, by decide, by norm_num, by norm_num⟩
  · have hm0 : m * 25 ≠ 0 := by
      have : 0 < 2 ^ n := Nat.pos_pow_of_pos n (by norm_num)
      omega
    obtain ⟨hL, _⟩ := bitLength_spec (m * 25) hm0
    have hL6 : bitLength (m * 25) < n + 6 := by
      apply (Nat.pow_lt_pow_iff_right (by norm_num : 1 < 2)).mp
      have : 2 ^ (n + 6) = 64 * 2 ^ n := by rw [pow_add]; ring
      omega
    obtain ⟨k, hk⟩ : ∃ k : Nat,
        k = (max ((bitLength (m * 25) : Int) - 53) (-1074 - (-(n : Int) + 2))).toNat := ⟨_, rfl⟩
    have hkn : k + 1 ≤ n := by omega
    obtain ⟨j, hj⟩ : ∃ j : Nat, n = k + (j + 1) := ⟨n - k - 1, by omega⟩
    have hpn : 2 ^ n = 2 ^ j * 2 ^ k * 2 := by rw [hj]; ring
    have hup : roundHalfEven (m * 25) k ≤ 25 * (2 * 2 ^ j) := by
      apply roundHalfEven_le
      have : 25 * (2 * 2 ^ j) * 2 ^ k = 25 * (2 ^ j * 2 ^ k * 2) := by ring
      omega
    have hlo : 25 * 2 ^ j ≤ roundHalfEven (m * 25) k := by
      apply roundHalfEven_ge
      have : 25 * 2 ^ j * 2 ^ k = 25 * (2 ^ j * 2 ^ k) := by ring
      omega
    have he2 : -(n : Int) + 2 + (k : Int) = 1 - (j : Int) := by omega
    unfold roundBinary64
    simp only [← hk, he2]
    generalize roundHalfEven (m * 25) k = m2 at hup hlo
    have hov : ¬ (m2 ≠ 0 ∧ 1024 < (bitLength m2 : Int) + (1 - (j : Int))) := by
      rintro ⟨h0, hc⟩
      obtain ⟨hB, _⟩ := bitLength_spec m2 h0
      have hB2 : bitLength m2 < j + 7 := by
        apply (Nat.pow_lt_pow_iff_right (by norm_num : 1 < 2)).mp
        have : 2 ^ (j + 7) = 128 * 2 ^ j := by rw [pow_add]; ring
        omega
      omega
    rw [if_neg hov]
    rcases j with _ | _ | j
    · -- exponent 1
      simp only [pow_zero, mul_one] at hup hlo
      refine ⟨(m2 : Int) * 2, ?_, by omega, by omega⟩
      simp [mathRound, F64.signedMant]
    · -- exponent 0
      simp only [zero_add, pow_one] at hup hlo
      refine ⟨(m2 : Int), ?_, by omega, by omega⟩
      simp [mathRound, F64.signedMant]
    · -- negative exponent
      have hneg : ¬ ((0 : Int) ≤ 1 - ((j + 1 + 1 : Nat) : Int)) := by omega
      have hexp : (-(1 - ((j + 1 + 1 : Nat) : Int))).toNat = j + 1 := by omega
      simp only [mathRound, if_neg hneg, hexp, F64.signedMant]
      have hpow : (2 : Nat) ^ (j + 1 + 1) = 2 * 2 ^ (j + 1) := by ring
      rw [hpow] at hup hlo
      have hd : (0 : Int) < 2 * 2 ^ (j + 1) := by positivity
      refine ⟨_, rfl, ?_, ?_⟩
      · apply Int.le_ediv_of_mul_le hd
        have : ((25 * (2 * 2 ^ (j + 1)) : Nat) : Int) ≤ (m2 : Int) := by exact_mod_cast hlo
        push_cast at this
        simp only [Bool.false_eq_true, if_false]
        nlinarith [this]
      · have hlt : (2 * (m2 : Int) + 2 ^ (j + 1)) / (2 * 2 ^ (j + 1)) < 101 := by
          apply Int.ediv_lt_of_lt_mul hd
          have : (m2 : Int) ≤ ((25 * (2 * (2 * 2 ^ (j + 1))) : Nat) : Int) := by exact_mod_cast hup
          push_cast at this
          have hp : (0 : Int) < 2 ^ (j + 1) := by positivity
          nlinarith [this]
        simp only [Bool.false_eq_true, if_false]
        omega


theorem F64.mul_hundred_bounds (x : F64) (hlo : 1 / 2 < x.toRat) (hhi : x.toRat ≤ 1) :
    ∃ c : Int, mathRound (F64.mul x F64.hundred) = .int c ∧ 50 ≤ c ∧ c ≤ 100 := by
  obtain ⟨neg, m, e⟩ := x
  cases neg with
  | true =>
    exfalso
    have h2 : (0 : ℚ) < (2 : ℚ) ^ e := zpow_pos (by norm_num) _
    have hle : F64.toRat ⟨true, m, e⟩ ≤ 0 := by
      simp only [F64.toRat, F64.signedMant, if_true, Int.cast_neg, Int.cast_natCast]
      have : (0 : ℚ) ≤ (m : ℚ) := Nat.cast_nonneg m
      nlinarith
    linarith
  | false =>
    simp only [F64.toRat, F64.signedMant, Bool.false_eq_true, if_false, Int.cast_natCast]
      at hlo hhi
    have hmpos : (1 : ℚ) ≤ (m : ℚ) := by
      rcases Nat.eq_zero_or_pos m with h | h
      · subst h; norm_num at hlo
      · exact_mod_cast h
    have he : e ≤ 0 := by
      by_contra hc
      have h1 : (1 : Int) ≤ e := by omega
      have h2 : (2 : ℚ) ^ (1 : Int) ≤ (2 : ℚ) ^ e := zpow_le_zpow_right₀ (by norm_num) h1
      rw [zpow_one] at h2
      nlinarith
    obtain ⟨n, rfl⟩ : ∃ n : Nat, e = -(n : Int) := ⟨(-e).toNat, by omega⟩
    rw [zpow_neg, zpow_natCast] at hlo hhi
    have hpos : (0 : ℚ) < (2 : ℚ) ^ n := by positivity
    have h1 : m ≤ 2 ^ n := by
      have : (m : ℚ) ≤ (2 : ℚ) ^ n := by
        have := mul_le_mul_of_nonneg_right hhi hpos.le
        rwa [mul_assoc, inv_mul_cancel₀ hpos.ne', mul_one, one_mul] at this
      exact_mod_cast this
    have h2 : 2 ^ n < 2 * m := by
      have : (2 : ℚ) ^ n < 2 * (m : ℚ) := by
        have := mul_lt_mul_of_pos_right hlo hpos
        rw [mul_assoc, inv_mul_cancel₀ hpos.ne', mul_one] at this
        linarith
      exact_mod_cast this
    have := mathRound_roundBinary64_bounds m n h1 h2
    simpa [F64.mul, F64.hundred] using this


/-! ## Rounding to binary64 is rounding to nearest, ties to even -/

theorem roundHalfEven_zero (m : Nat) : roundHalfEven m 0 = m := by
  simp [roundHalfEven, Nat.mod_one]

theorem roundHalfEven_err (m k : Nat) :
    2 * (roundHalfEven m k * 2 ^ k) ≤ 2 * m + 2 ^ k ∧
    2 * m ≤ 2 * (roundHalfEven m k * 2 ^ k) + 2 ^ k ∧
    ((2 * (roundHalfEven m k * 2 ^ k) = 2 * m + 2 ^ k ∨
      2 * m = 2 * (roundHalfEven m k * 2 ^ k) + 2 ^ k) → Even (roundHalfEven m k)) := by
  have hpos : 0 < 2 ^ k := Nat.pos_pow_of_pos k (by norm_num)
  have hdm := Nat.div_add_mod m (2 ^ k)
  have hmod := Nat.mod_lt m hpos
  have hval : roundHalfEven m k =
      if 2 ^ k < 2 * (m % 2 ^ k) then m / 2 ^ k + 1
      else if 2 * (m % 2 ^ k) = 2 ^ k then m / 2 ^ k + m / 2 ^ k % 2 else m / 2 ^ k := rfl
  rw [hval]
  generalize m / 2 ^ k = q at hdm
  generalize m % 2 ^ k = r at hdm hmod
  generalize 2 ^ k = P at hdm hmod hpos
  generalize hX : P * q = X at hdm
  split
  · have h1 : (q + 1) * P = X + P := by rw [← hX]; ring
    rw [h1]
    refine ⟨by omega, by omega, ?_⟩
    intro h; omega
  · split
    · rcases Nat.mod_two_eq_zero_or_one q with h0 | h1
      · rw [h0, Nat.add_zero]
        have h1 : q * P = X := by rw [← hX]; ring
        rw [h1]
        exact ⟨by omega, by omega, fun _ => Nat.even_iff.mpr h0⟩
      · rw [h1]
        have h2 : (q + 1) * P = X + P := by rw [← hX]; ring
        rw [h2]
        refine ⟨by omega, by omega, fun _ => ?_⟩
        rw [Nat.even_iff]; omega
    · have h1 : q * P = X := by rw [← hX]; ring
      rw [h1]
      refine ⟨by omega, by omega, ?_⟩
      intro h; omega

theorem bitLength_le_of_lt (m n : Nat) (h : m < 2 ^ n) : bitLength m ≤ n := by
  rcases Nat.eq_zero_or_pos m with h0 | h0
  · subst h0; simp [bitLength, bitLengthAux]
  · obtain ⟨hL, _⟩ := bitLength_spec m (by omega)
    have : 2 ^ bitLength m < 2 ^ (n + 1) := by rw [pow_succ]; omega
    have := (Nat.pow_lt_pow_iff_right (by norm_num : 1 < 2)).mp this
    omega

/-- The mantissa kept by the rounding has at most 53 bits, and all 53 when bits were
dropped for precision. -/
theorem roundHalfEven_precision (m k : Nat) (hk : bitLength m ≤ 53 + k) :
    roundHalfEven m k ≤ 2 ^ 53 ∧
    (0 < k → bitLength m = 53 + k → 2 ^ 52 ≤ roundHalfEven m k) := by
  rcases Nat.eq_zero_or_pos m with h0 | h0
  · subst h0
    refine ⟨roundHalfEven_le 0 k _ (Nat.zero_le _), fun _ h => ?_⟩
    simp [bitLength, bitLengthAux] at h
    omega
  · obtain ⟨hL, hU⟩ := bitLength_spec m (by omega)
    constructor
    · apply roundHalfEven_le
      have h1 : 2 ^ bitLength m ≤ 2 ^ (53 + k) := Nat.pow_le_pow_right (by norm_num) hk
      have h2 : 2 ^ (53 + k) = 2 ^ 53 * 2 ^ k := by rw [pow_add]
      omega
    · intro _ hfull
      apply roundHalfEven_ge
      rw [hfull] at hL
      have h2 : 2 ^ (53 + k) = 2 * (2 ^ 52 * 2 ^ k) := by rw [pow_add]; ring
      omega


theorem F64.toRat_mk (neg : Bool) (m : Nat) (e : Int) :
    (F64.mk neg m e).toRat = (if neg then -1 else 1) * ((m : ℚ) * (2 : ℚ) ^ e) := by
  cases neg <;> simp [F64.toRat, F64.signedMant]

/-- The rounding of the embedding is the rounding of the format: for every sign, mantissa
and exponent the kept mantissa and exponent denote the binary64 value nearest to the exact
value. -/
theorem roundBinary64_nearest (neg : Bool) (m : Nat) (e : Int) :
    NearestBinary64 (F64.mk neg m e).toRat
      ⟨neg, roundHalfEven m (max ((bitLength m : Int) - 53) (-1074 - e)).toNat,
        e + ((max ((bitLength m : Int) - 53) (-1074 - e)).toNat : Nat)⟩ := by
  obtain ⟨k, hk⟩ : ∃ k : Nat, k = (max ((bitLength m : Int) - 53) (-1074 - e)).toNat :=
    ⟨_, rfl⟩
  rw [← hk]
  obtain ⟨h53, hfull⟩ := roundHalfEven_precision m k (by omega)
  obtain ⟨hle1, hle2, htie⟩ := roundHalfEven_err m k
  generalize roundHalfEven m k = m2 at h53 hfull hle1 hle2 htie
  have hpe : (0 : ℚ) < (2 : ℚ) ^ e := zpow_pos (by norm_num) _
  have hpow : (2 : ℚ) ^ (e + (k : Int)) = (2 : ℚ) ^ e * (2 : ℚ) ^ k := by
    rw [zpow_add₀ (by norm_num : (2 : ℚ) ≠ 0), zpow_natCast]
  have hc1 : (2 : ℚ) * ((m2 : ℚ) * (2 : ℚ) ^ k) ≤ 2 * (m : ℚ) + (2 : ℚ) ^ k := by
    exact_mod_cast hle1
  have hc2 : (2 : ℚ) * (m : ℚ) ≤ 2 * ((m2 : ℚ) * (2 : ℚ) ^ k) + (2 : ℚ) ^ k := by
    exact_mod_cast hle2
  have hdiff : (F64.mk neg m2 (e + (k : Int))).toRat - (F64.mk neg m e).toRat =
      (if neg then -1 else 1) * ((2 : ℚ) ^ e * ((m2 : ℚ) * (2 : ℚ) ^ k - m)) := by
    rw [F64.toRat_mk, F64.toRat_mk, hpow]
    ring
  have habs : |(F64.mk neg m2 (e + (k : Int))).toRat - (F64.mk neg m e).toRat| =
      (2 : ℚ) ^ e * |(m2 : ℚ) * (2 : ℚ) ^ k - m| := by
    rw [hdiff, abs_mul, abs_mul, abs_of_pos hpe]
    cases neg <;> simp
  refine ⟨h53, by show -1074 ≤ e + (k : Int); omega, ?_, ?_, ?_⟩
  · show |(F64.mk neg m2 (e + (k : Int))).toRat - (F64.mk neg m e).toRat| ≤
      (2 : ℚ) ^ (e + (k : Int)) / 2
    rw [habs, hpow, mul_div_assoc]
    apply mul_le_mul_of_nonneg_left _ hpe.le
    rw [abs_le]
    constructor <;> linarith
  · show |(F64.mk neg m2 (e + (k : Int))).toRat - (F64.mk neg m e).toRat| =
      (2 : ℚ) ^ (e + (k : Int)) / 2 → Even m2
    intro h
    rw [habs, hpow, mul_div_assoc] at h
    have h2 : |(m2 : ℚ) * (2 : ℚ) ^ k - m| = (2 : ℚ) ^ k / 2 :=
      mul_left_cancel₀ hpe.ne' h
    apply htie
    rcases abs_cases ((m2 : ℚ) * (2 : ℚ) ^ k - m) with ⟨h3, _⟩ | ⟨h3, _⟩
    · left
      have : (2 : ℚ) * ((m2 : ℚ) * (2 : ℚ) ^ k) = 2 * (m : ℚ) + (2 : ℚ) ^ k := by
        rw [h3] at h2; linarith
      exact_mod_cast this
    · right
      have : (2 : ℚ) * (m : ℚ) = 2 * ((m2 : ℚ) * (2 : ℚ) ^ k) + (2 : ℚ) ^ k := by
        rw [h3] at h2; linarith
      exact_mod_cast this
  · show (F64.mk neg m2 (e + (k : Int))).toRat = (F64.mk neg m e).toRat ∨ 2 ^ 52 ≤ m2 ∨
      e + (k : Int) = -1074
    rcases Nat.eq_zero_or_pos k with h0 | hpos
    · left
      subst h0
      have hm2 : m2 = m := by
        have a1 := hle1
        have a2 := hle2
        simp only [pow_zero, mul_one] at a1 a2
        omega
      rw [hm2]
      simp
    · right
      by_cases hcase : (bitLength m : Int) - 53 = k
      · left
        exact hfull hpos (by omega)
      · right
        omega


/-- The builtin `Math.round` of a finite number is the floor of the number plus one half. -/
theorem mathRound_finite (x : F64) : mathRound (.finite x) = .int ⌊x.toRat + 1 / 2⌋ := by
  by_cases h : 0 ≤ x.exp
  · simp only [mathRound, if_pos h]
    congr 1
    have hexp : (2 : ℚ) ^ x.exp = (((2 : Int) ^ x.exp.toNat : Int) : ℚ) := by
      push_cast
      rw [← zpow_natCast, Int.toNat_of_nonneg h]
    have : x.toRat = ((x.signedMant * 2 ^ x.exp.toNat : Int) : ℚ) := by
      unfold F64.toRat
      rw [hexp]
      push_cast
      rfl
    rw [this, Int.floor_int_add]
    have : ⌊(1 / 2 : ℚ)⌋ = 0 := by
      rw [Int.floor_eq_zero_iff]
      constructor <;> norm_num
    rw [this, add_zero]
  · simp only [mathRound, if_neg h]
    congr 1
    have hd : ((-x.exp).toNat : Int) = -x.exp := Int.toNat_of_nonneg (by omega)
    have hexp : (2 : ℚ) ^ x.exp = ((2 : ℚ) ^ (-x.exp).toNat)⁻¹ := by
      rw [← zpow_natCast, hd, zpow_neg, inv_inv]
    have hpos : (0 : ℚ) < (2 : ℚ) ^ (-x.exp).toNat := by positivity
    have : x.toRat + 1 / 2 =
        ((2 * x.signedMant + 2 ^ (-x.exp).toNat : Int) : ℚ) /
          ((2 * 2 ^ (-x.exp).toNat : Nat) : ℚ) := by
      unfold F64.toRat
      rw [hexp]
      push_cast
      field_simp
      ring
    rw [this, Rat.floor_intCast_div_natCast]
    push_cast
    rfl

theorem overflow_iff (m2 : Nat) (e2 : Int) :
    (m2 ≠ 0 ∧ 1024 < (bitLength m2 : Int) + e2) ↔
      (2 : ℚ) ^ (1024 : Int) ≤ (m2 : ℚ) * (2 : ℚ) ^ e2 := by
  have h2 : (2 : ℚ) ≠ 0 := by norm_num
  have hpe : (0 : ℚ) < (2 : ℚ) ^ e2 := zpow_pos (by norm_num) _
  constructor
  · rintro ⟨h0, hlt⟩
    obtain ⟨hL, _⟩ := bitLength_spec m2 h0
    have hLq : (2 : ℚ) ^ (bitLength m2 : Int) ≤ 2 * (m2 : ℚ) := by
      rw [zpow_natCast]; exact_mod_cast hL
    have h1 : (2 : ℚ) ^ ((1024 : Int) + 1) ≤ (2 : ℚ) ^ ((bitLength m2 : Int) + e2) :=
      zpow_le_zpow_right₀ (by norm_num) (by omega)
    rw [zpow_add₀ h2, zpow_add₀ h2, zpow_one] at h1
    have h3 : (2 : ℚ) ^ (bitLength m2 : Int) * (2 : ℚ) ^ e2 ≤ 2 * (m2 : ℚ) * (2 : ℚ) ^ e2 :=
      mul_le_mul_of_nonneg_right hLq hpe.le
    linarith
  · intro h
    by_contra hc
    have hlt : (m2 : ℚ) * (2 : ℚ) ^ e2 < (2 : ℚ) ^ (1024 : Int) := by
      rcases Nat.eq_zero_or_pos m2 with h0 | h0
      · subst h0
        simp only [Nat.cast_zero, zero_mul]
        exact zpow_pos (by norm_num) _
      · have hle : (bitLength m2 : Int) + e2 ≤ 1024 := by
          by_contra hx
          exact hc ⟨by omega, by omega⟩
        obtain ⟨_, hU⟩ := bitLength_spec m2 (by omega)
        have hUq : (m2 : ℚ) < (2 : ℚ) ^ (bitLength m2 : Int) := by
          rw [zpow_natCast]; exact_mod_cast hU
        have h1 : (2 : ℚ) ^ ((bitLength m2 : Int) + e2) ≤ (2 : ℚ) ^ (1024 : Int) :=
          zpow_le_zpow_right₀ (by norm_num) hle
        rw [zpow_add₀ h2] at h1
        have h3 : (m2 : ℚ) * (2 : ℚ) ^ e2 < (2 : ℚ) ^ (bitLength m2 : Int) * (2 : ℚ) ^ e2 :=
          mul_lt_mul_of_pos_right hUq hpe
        linarith
    linarith


theorem F64.toRat_hundred : F64.hundred.toRat = 100 := by
  norm_num [F64.toRat, F64.hundred, F64.signedMant]

/-- For a positive score the confidence computed by the code is `Math.round(score * 100)`
as the number format defines it. -/
theorem roundedPercent_of_score (s : F64) (hpos : 0 < s.toRat) :
    IsRoundedPercent s.toRat (mathRound (F64.mul s F64.hundred)) := by
  obtain ⟨neg, m, e⟩ := s
  have hneg : neg = false := by
    cases neg with
    | false => rfl
    | true =>
      exfalso
      rw [F64.toRat_mk] at hpos
      have h2 : (0 : ℚ) < (2 : ℚ) ^ e := zpow_pos (by norm_num) _
      have h3 : (0 : ℚ) ≤ (m : ℚ) := Nat.cast_nonneg m
      simp only [if_true] at hpos
      nlinarith
  subst hneg
  have hexact : (F64.mk false (m * 25) (e + 2)).toRat = (F64.mk false m e).toRat * 100 := by
    rw [F64.toRat_mk, F64.toRat_mk, zpow_add₀ (by norm_num : (2 : ℚ) ≠ 0)]
    push_cast
    norm_num
    ring
  have hnear := roundBinary64_nearest false (m * 25) (e + 2)
  rw [hexact] at hnear
  obtain ⟨k, hk⟩ : ∃ k : Nat,
      k = (max ((bitLength (m * 25) : Int) - 53) (-1074 - (e + 2))).toNat := ⟨_, rfl⟩
  rw [← hk] at hnear
  have hmul : F64.mul ⟨false, m, e⟩ F64.hundred =
      if roundHalfEven (m * 25) k ≠ 0 ∧
          1024 < (bitLength (roundHalfEven (m * 25) k) : Int) + (e + 2 + (k : Int)) then
        .infinite false
      else .finite ⟨false, roundHalfEven (m * 25) k, e + 2 + (k : Int)⟩ := by
    simp only [F64.mul, F64.hundred, roundBinary64, ← hk]
    rfl
  have hy : (F64.mk false (roundHalfEven (m * 25) k) (e + 2 + (k : Int))).toRat =
      ((roundHalfEven (m * 25) k : Nat) : ℚ) * (2 : ℚ) ^ (e + 2 + (k : Int)) := by
    rw [F64.toRat_mk]; simp
  have hcast : (2 : ℚ) ^ (1024 : Int) = (2 : ℚ) ^ (1024 : Nat) := by
    rw [← zpow_natCast]; rfl
  refine ⟨⟨false, roundHalfEven (m * 25) k, e + 2 + (k : Int)⟩, hnear, ?_⟩
  rw [hmul]
  by_cases hov : roundHalfEven (m * 25) k ≠ 0 ∧
      1024 < (bitLength (roundHalfEven (m * 25) k) : Int) + (e + 2 + (k : Int))
  · right
    rw [if_pos hov]
    refine ⟨?_, rfl⟩
    rw [hy, ← hcast]
    exact (overflow_iff _ _).mp hov
  · left
    rw [if_neg hov]
    refine ⟨?_, mathRound_finite _⟩
    rw [hy, ← hcast]
    exact not_le.mp (fun h => hov ((overflow_iff _ _).mpr h))

theorem intercalate_go_ne_empty (s : String) (as : List String) :
    ∀ acc : String, acc ≠ "" → String.intercalate.go acc s as ≠ "" := by
  induction as with
  | nil => intro acc h; simpa [String.intercalate.go] using h
  | cons a rest ih =>
    intro acc h
    simp only [String.intercalate.go]
    apply ih
    intro hc
    apply h
    have hl := congrArg String.length hc
    have h0 : "".length = 0 := rfl
    rw [String.length_append, String.length_append, h0] at hl
    have hacc : acc.length = 0 := by omega
    apply String.ext
    exact List.length_eq_zero.mp hacc

/-- The comma-joined names are the empty string only for no name or one empty name. -/
theorem intercalate_comma_eq_empty (names : List String) :
    ",".intercalate names = "" ↔ names = [] ∨ names = [""] := by
  constructor
  · intro h
    match names, h with
    | [], _ => exact Or.inl rfl
    | [a], h =>
      right
      simp only [String.intercalate, String.intercalate.go] at h
      rw [h]
    | a :: b :: rest, h =>
      exfalso
      simp only [String.intercalate, String.intercalate.go] at h
      refine intercalate_go_ne_empty "," rest (a ++ "," ++ b) ?_ h
      intro hc
      have hl := congrArg String.length hc
      simp only [String.length_append] at hl
      have h1 : ",".length = 1 := rfl
      have h0 : "".length = 0 := rfl
      omega
  · rintro (h | h) <;> subst h <;> rfl


/-! ## `parseInt` reads back the decimal text of an integer -/

theorem digitValue_digitChar (d : Nat) (h : d < 10) :
    digitValue 10 (Char.ofNat (48 + d)) = some d := by
  interval_cases d <;> rfl

theorem takeDigits_map (ds : List Nat) (h : ∀ d ∈ ds, d < 10) :
    takeDigits 10 (ds.map fun d => Char.ofNat (48 + d)) = ds := by
  induction ds with
  | nil => rfl
  | cons d rest ih =>
    simp only [List.map_cons, takeDigits, digitValue_digitChar d (h d (List.mem_cons_self _ _))]
    rw [ih fun x hx => h x (List.mem_cons_of_mem _ hx)]

theorem foldl_reverse_digits (L : List Nat) :
    L.reverse.foldl (fun a d => a * 10 + d) 0 = Nat.ofDigits 10 L := by
  induction L with
  | nil => rfl
  | cons d rest ih =>
    rw [List.reverse_cons, List.foldl_append, ih, Nat.ofDigits_cons]
    simp only [List.foldl_cons, List.foldl_nil]
    ring

theorem dropWhile_digit_head (d : Nat) (h : d < 10) (rest : List Char) :
    (Char.ofNat (48 + d) :: rest).dropWhile isJsWhiteSpace = Char.ofNat (48 + d) :: rest := by
  interval_cases d <;> rfl

theorem stripSign_digit_head (d : Nat) (h : d < 10) (rest : List Char) :
    stripSign (Char.ofNat (48 + d) :: rest) = (false, Char.ofNat (48 + d) :: rest) := by
  interval_cases d <;> rfl

theorem stripRadix_digit_head (d : Nat) (h0 : d ≠ 0) (h : d < 10) (rest : List Char) :
    stripRadix (Char.ofNat (48 + d) :: rest) = (10, Char.ofNat (48 + d) :: rest) := by
  interval_cases d <;> first | exact absurd rfl h0 | rfl

/-- The decimal text of a positive number starts with a non-zero digit, and its digits
read back as the number. -/
theorem natDecimal_pos (n : Nat) (hn : n ≠ 0) :
    ∃ d rest, d ≠ 0 ∧ d < 10 ∧ natDecimal n = Char.ofNat (48 + d) :: rest ∧
      takeDigits 10 (natDecimal n) = (Nat.digits 10 n).reverse := by
  have hne : Nat.digits 10 n ≠ [] := Nat.digits_ne_nil_iff_ne_zero.mpr hn
  have hlast := Nat.getLast_digit_ne_zero 10 hn
  have hlt : ∀ d ∈ (Nat.digits 10 n).reverse, d < 10 := fun d hd =>
    Nat.digits_lt_base (by norm_num) (List.mem_reverse.mp hd)
  have htake : takeDigits 10 (natDecimal n) = (Nat.digits 10 n).reverse := by
    simp only [natDecimal, hn, if_false]
    exact takeDigits_map _ hlt
  obtain ⟨init, hinit⟩ : ∃ init, Nat.digits 10 n = init ++ [(Nat.digits 10 n).getLast hne] :=
    ⟨_, (List.dropLast_append_getLast hne).symm⟩
  refine ⟨(Nat.digits 10 n).getLast hne, init.reverse.map fun d => Char.ofNat (48 + d),
    hlast, Nat.digits_lt_base (by norm_num) (List.getLast_mem hne), ?_, htake⟩
  simp only [natDecimal, hn, if_false]
  conv_lhs => rw [hinit]
  simp

theorem parseInt_natDecimal (n : Nat) (hn : n ≠ 0) (neg : Bool) :
    parseInt (String.mk (if neg then '-' :: natDecimal n else natDecimal n)) =
      some (roundBinary64 neg n 0) := by
  obtain ⟨d, rest, hd0, hd, hcs, htake⟩ := natDecimal_pos n hn
  have hdigits : (Nat.digits 10 n).reverse ≠ [] := by
    simpa using Nat.digits_ne_nil_iff_ne_zero.mpr hn
  have hval : (Nat.digits 10 n).reverse.foldl (fun a d => a * 10 + d) 0 = n := by
    rw [foldl_reverse_digits, Nat.ofDigits_digits]
  have hsigned : stripSign ((if neg then '-' :: natDecimal n else natDecimal n).dropWhile
      isJsWhiteSpace) = (neg, natDecimal n) := by
    cases neg with
    | true =>
      have : ('-' :: natDecimal n).dropWhile isJsWhiteSpace = '-' :: natDecimal n := rfl
      simp only [if_true, this]
      rfl
    | false =>
      simp only [Bool.false_eq_true, if_false]
      rw [hcs, dropWhile_digit_head d hd, stripSign_digit_head d hd]
  have hbased : stripRadix (natDecimal n) = (10, natDecimal n) := by
    rw [hcs, stripRadix_digit_head d hd0 hd]
  have hempty : (Nat.digits 10 n).reverse.isEmpty = false := by
    cases h : (Nat.digits 10 n).reverse with
    | nil => exact absurd h hdigits
    | cons _ _ => rfl
  have hlist : (String.mk (if neg then '-' :: natDecimal n else natDecimal n)).toList =
      if neg then '-' :: natDecimal n else natDecimal n := rfl
  unfold parseInt
  simp only [hlist, hsigned, hbased, htake, hval, hempty, Bool.false_eq_true, if_false]

/-- An integer below `2 ^ 53` is a Number as it stands. -/
theorem roundBinary64_small (neg : Bool) (m : Nat) (h : m < 2 ^ 53) :
    roundBinary64 neg m 0 = .finite ⟨neg, m, 0⟩ := by
  have hL : bitLength m ≤ 53 := bitLength_le_of_lt m 53 h
  have hk : (max ((bitLength m : Int) - 53) (-1074 - 0)).toNat = 0 := by omega
  have hov : ¬ (m ≠ 0 ∧ 1024 < (bitLength m : Int) + (0 + ((0 : Nat) : Int))) := by
    rintro ⟨_, hc⟩
    omega
  unfold roundBinary64
  simp only [hk, roundHalfEven_zero, if_neg hov]
  rfl

/-- For every integer of absolute value below `2 ^ 53`, `parseInt` of its decimal text is
the Number that denotes it. -/
theorem parseInt_intDecimal (z : Int) (hz : z.natAbs < 2 ^ 53) :
    parseInt (intDecimal z) = some (.finite ⟨decide (z < 0), z.natAbs, 0⟩) := by
  unfold intDecimal
  rcases lt_trichotomy z 0 with h | h | h
  · have hn : z.natAbs ≠ 0 := by omega
    have := parseInt_natDecimal z.natAbs hn true
    simp only [if_true] at this
    rw [if_pos h, this, roundBinary64_small true _ hz]
    simp [h]
  · subst h
    decide
  · have hn : z.natAbs ≠ 0 := by omega
    have := parseInt_natDecimal z.natAbs hn false
    simp only [Bool.false_eq_true, if_false] at this
    rw [if_neg (by omega), this, roundBinary64_small false _ hz]
    have : ¬ z < 0 := by omega
    simp [this]

/-- The key the store reads for the decimal text of an integer of absolute value below
`2 ^ 53` is that integer. -/
theorem integerKey_parseInt_intDecimal (z : Int) (hz : z.natAbs < 2 ^ 53) :
    integerKey (parseInt (intDecimal z)) = some z := by
  rw [parseInt_intDecimal z hz]
  simp only [integerKey, F64.toInt?, le_refl, if_true, F64.signedMant, Int.toNat_zero,
    pow_zero, mul_one]
  congr 1
  by_cases h : z < 0
  · simp only [h, decide_True, if_true]; omega
  · simp only [h, decide_False, Bool.false_eq_true, if_false]; omega


/-! ## Favorites: invariants of the store -/

theorem wellFormed_empty : FavoritesTable.empty.WellFormed := by
  simp [FavoritesTable.WellFormed, FavoritesTable.empty]

theorem wellFormed_postFavorites (fault : Option String) (now : Nat) (t : FavoritesTable)
    (body : AddBody) (hwf : t.WellFormed) :
    (postFavorites fault now t body).table.WellFormed := by
  unfold postFavorites
  split
  · exact hwf
  · split
    · cases fault with
      | some e => simpa [dbInsertReturning] using hwf
      | none =>
        obtain ⟨hlt, hnd⟩ := hwf
        simp only [dbInsertReturning, FavoritesTable.WellFormed]
        refine ⟨?_, ?_⟩
        · intro r hr
          rcases List.mem_append.mp hr with h | h
          · exact Nat.lt_succ_of_lt (hlt r h)
          · simp only [List.mem_singleton] at h
            subst h
            exact Nat.lt_succ_self _
        · rw [List.map_append, List.nodup_append]
          refine ⟨hnd, by simp, ?_⟩
          intro a ha hb
          simp only [List.map_cons, List.map_nil, List.mem_singleton] at hb
          obtain ⟨r, hr, rfl⟩ := List.mem_map.mp ha
          exact absurd hb (Nat.ne_of_lt (hlt r hr))
    · exact hwf

theorem wellFormed_deleteFavorite (fault : Option String) (t : FavoritesTable)
    (userId recipeId : String) (hwf : t.WellFormed) :
    (deleteFavorite fault t userId recipeId).table.WellFormed := by
  unfold deleteFavorite dbDeleteWhere
  cases fault with
  | some e => exact hwf
  | none =>
    cases integerKey (parseInt recipeId) with
    | none => exact hwf
    | some k =>
      obtain ⟨hlt, hnd⟩ := hwf
      refine ⟨fun r hr => hlt r (List.mem_of_mem_filter hr), ?_⟩
      exact (List.filter_sublist _).map Favorite.id |>.nodup hnd

/-! ## Favorites: the claims -/

/-- C1: a `POST /api/favorites` body that lacks `userId`, `recipeId` or `title` is answered
with status 400 and the error "Missing required fields", whatever the state of the store,
and the favorites table after the call is the table before it. -/
theorem postFavorites_missing_field (fault : Option String) (now : Nat) (t : FavoritesTable)
    (body : AddBody)
    (h : body.userId = none ∨ body.recipeId = none ∨ body.title = none) :
    postFavorites fault now t body = ⟨400, .error "Missing required fields", t⟩ := by
  unfold postFavorites
  rcases h with h | h | h <;> simp [h, truthyStr, truthyInt]

/-- C2: on a well-formed table, an add with a non-empty `userId`, a non-zero `recipeId` and
a non-empty `title` succeeds with 201 when the store raises no error, and whenever it
answers 201 the returned row is listed for that user afterwards, carries the six submitted
values, and has an id that no row of the table before the add had. -/
theorem postFavorites_then_getFavorites (fault : Option String) (now : Nat)
    (t : FavoritesTable) (body : AddBody) (u : String) (r : Int) (ti : String)
    (hwf : t.WellFormed)
    (hu : body.userId = some u) (hune : u ≠ "")
    (hr : body.recipeId = some r) (hrne : r ≠ 0)
    (ht : body.title = some ti) (htne : ti ≠ "") :
    (fault = none → (postFavorites fault now t body).status = 201) ∧
    ((postFavorites fault now t body).status = 201 →
      ∃ row rows,
        (postFavorites fault now t body).body = .favorite row ∧
        getFavorites none (postFavorites fault now t body).table u =
          ⟨200, .favorites rows, (postFavorites fault now t body).table⟩ ∧
        row ∈ rows ∧
        row.userId = u ∧ row.recipeId = r ∧ row.title = ti ∧
        row.image = body.image ∧ row.cookTime = body.cookTime ∧
        row.servings = body.servings ∧
        ∀ old ∈ t.rows, old.id ≠ row.id) := by
  have hpost : postFavorites fault now t body =
      match dbInsertReturning fault now t ⟨u, r, ti, body.image, body.cookTime, body.servings⟩ with
      | .ok (t2, newFavorite) => ⟨201, .favorite newFavorite, t2⟩
      | .error _ => ⟨500, .error "Something went wrong", t⟩ := by
    unfold postFavorites
    simp [hu, hr, ht, truthyStr, truthyInt, hune, hrne, htne]
  rw [hpost]
  cases fault with
  | some e => simp [dbInsertReturning]
  | none =>
    refine ⟨fun _ => rfl, fun _ => ?_⟩
    refine ⟨⟨t.nextId, u, r, ti, body.image, body.cookTime, body.servings, now⟩, _, rfl, rfl,
      ?_, rfl, rfl, rfl, rfl, rfl, rfl, ?_⟩
    · simp [dbInsertReturning]
    · intro old hold
      exact Nat.ne_of_lt (hwf.1 old hold)

/-- The remove handler on a path segment that the store reads as the integer `n`. -/
theorem deleteFavorite_of_key (t : FavoritesTable) (userId seg : String) (n : Int)
    (h : integerKey (parseInt seg) = some n) :
    deleteFavorite none t userId seg =
      ⟨200, .message "Favorite removed successfully",
        ⟨t.rows.filter (fun r => decide (¬ (r.userId = userId ∧ r.recipeId = n))),
          t.nextId⟩⟩ := by
  unfold deleteFavorite dbDeleteWhere
  simp only [h]
  congr 2
  apply List.filter_congr
  intro r _
  by_cases h1 : r.userId = userId <;> by_cases h2 : r.recipeId = n <;> simp [h1, h2]

/-- The remove handler on a path segment that the store does not read as an integer. -/
theorem deleteFavorite_of_no_key (t : FavoritesTable) (userId seg : String)
    (h : integerKey (parseInt seg) = none) :
    deleteFavorite none t userId seg = ⟨500, .error "Something went wrong", t⟩ := by
  unfold deleteFavorite dbDeleteWhere
  simp only [h]

set_option maxRecDepth 100000 in
/-- C3 as stated fails for large integers.  The path segment `9007199254740993` is read by
`parseInt` as the Number 9007199254740992, so the remove deletes the favorite with that
other `recipeId` and keeps the one named in the path; and the integer written as a one
followed by 400 zeros is read as `Infinity`, which the store rejects, so the answer is 500
and the table is unchanged. -/
theorem deleteFavorite_large_recipeId :
    intDecimal 9007199254740993 = "9007199254740993" ∧
    integerKey (parseInt "9007199254740993") = some 9007199254740992 ∧
    deleteFavorite none
        ⟨[⟨1, "u1", 9007199254740993, "Soup", none, none, none, 10⟩,
          ⟨2, "u1", 9007199254740992, "Cake", none, none, none, 11⟩], 3⟩
        "u1" "9007199254740993" =
      ⟨200, .message "Favorite removed successfully",
        ⟨[⟨1, "u1", 9007199254740993, "Soup", none, none, none, 10⟩], 3⟩⟩ ∧
    parseInt (String.mk ('1' :: List.replicate 400 '0')) = some (.infinite false) ∧
    deleteFavorite none sampleTable "u1" (String.mk ('1' :: List.replicate 400 '0')) =
      ⟨500, .error "Something went wrong", sampleTable⟩ := by
  refine ⟨by simp [intDecimal, natDecimal], ?_⟩
  decide

/-- C3, amended: when the store raises no error, for every table, every `userId` and every
integer `n` of absolute value below `2 ^ 53` written in decimal in the path, the remove
handler answers 200 and leaves exactly the prior rows that do not match both `userId` and
`n`, in their prior order: no matching row survives (duplicates included), every other row
is kept as often as it occurred, and the list of that user afterwards has no row with that
`recipeId`. -/
theorem deleteFavorite_deletes_all_matching (t : FavoritesTable) (userId : String)
    (n : Int) (hn : n.natAbs < 2 ^ 53) :
    deleteFavorite none t userId (intDecimal n) =
      ⟨200, .message "Favorite removed successfully",
        ⟨t.rows.filter (fun r => decide (¬ (r.userId = userId ∧ r.recipeId = n))),
          t.nextId⟩⟩ ∧
    (∀ r ∈ (deleteFavorite none t userId (intDecimal n)).table.rows,
      ¬ (r.userId = userId ∧ r.recipeId = n)) ∧
    (∀ r, ¬ (r.userId = userId ∧ r.recipeId = n) →
      (deleteFavorite none t userId (intDecimal n)).table.rows.count r = t.rows.count r) ∧
    List.Sublist (deleteFavorite none t userId (intDecimal n)).table.rows t.rows ∧
    ∃ rows,
      getFavorites none (deleteFavorite none t userId (intDecimal n)).table userId =
        ⟨200, .favorites rows, (deleteFavorite none t userId (intDecimal n)).table⟩ ∧
      ∀ r ∈ rows, r.recipeId ≠ n := by
  rw [deleteFavorite_of_key t userId _ n (integerKey_parseInt_intDecimal n hn)]
  refine ⟨rfl, ?_, ?_, List.filter_sublist _, _, rfl, ?_⟩
  · intro r hr
    have hk := (List.mem_filter.mp hr).2
    simp only [decide_eq_true_eq] at hk
    exact hk
  · intro r hr
    simp only [List.count_filter, hr, not_false_eq_true, decide_True]
  · intro r hr
    simp only [List.mem_filter] at hr
    obtain ⟨⟨_, h1⟩, h2⟩ := hr
    intro hn
    simp only [beq_iff_eq] at h2
    simp [h2, hn] at h1

set_option maxRecDepth 100000 in
/-- C4 as stated fails for large integers: for the `recipeId` written as a one followed by
400 zeros, which `parseInt` reads as `Infinity`, the first remove answers 500 and so does
the second. -/
theorem deleteFavorite_twice_huge_recipeId :
    deleteFavorite none
        (deleteFavorite none sampleTable "u1"
          (String.mk ('1' :: List.replicate 400 '0'))).table "u1"
        (String.mk ('1' :: List.replicate 400 '0')) =
      ⟨500, .error "Something went wrong", sampleTable⟩ := by
  decide

/-- C4, amended: deletion is idempotent.  When the store raises no error, for every table,
`userId` and `recipeId` path segment, a second remove leaves the table the first remove
produced and answers with the status and body of the first; and for every integer
`recipeId` of absolute value below `2 ^ 53` written in decimal, the first remove answers
200 and the second, which matches no row, answers 200 with the success message. -/
theorem deleteFavorite_idempotent (t : FavoritesTable) (userId : String) :
    (∀ seg : String,
      (deleteFavorite none (deleteFavorite none t userId seg).table userId seg).table =
        (deleteFavorite none t userId seg).table ∧
      (deleteFavorite none (deleteFavorite none t userId seg).table userId seg).status =
        (deleteFavorite none t userId seg).status ∧
      (deleteFavorite none (deleteFavorite none t userId seg).table userId seg).body =
        (deleteFavorite none t userId seg).body) ∧
    (∀ n : Int, n.natAbs < 2 ^ 53 →
      (deleteFavorite none t userId (intDecimal n)).status = 200 ∧
      deleteFavorite none (deleteFavorite none t userId (intDecimal n)).table userId
          (intDecimal n) =
        ⟨200, .message "Favorite removed successfully",
          (deleteFavorite none t userId (intDecimal n)).table⟩ ∧
      ∀ r ∈ (deleteFavorite none t userId (intDecimal n)).table.rows,
        ¬ (r.userId = userId ∧ r.recipeId = n)) := by
  constructor
  · intro seg
    cases hkey : integerKey (parseInt seg) with
    | none =>
      rw [deleteFavorite_of_no_key t userId seg hkey]
      rw [deleteFavorite_of_no_key t userId seg hkey]
      exact ⟨rfl, rfl, rfl⟩
    | some k =>
      rw [deleteFavorite_of_key t userId seg k hkey]
      rw [deleteFavorite_of_key _ userId seg k hkey]
      simp only [List.filter_filter, Bool.and_self, and_self]
  · intro n hn
    have hkey := integerKey_parseInt_intDecimal n hn
    rw [deleteFavorite_of_key t userId _ n hkey]
    rw [deleteFavorite_of_key _ userId _ n hkey]
    refine ⟨rfl, ?_, ?_⟩
    · simp only [List.filter_filter, Bool.and_self]
    · intro r hr
      have hk := (List.mem_filter.mp hr).2
      simp only [decide_eq_true_eq] at hk
      exact hk

/-! ## The ingredient-recognition handler: shape of a run -/

theorem unlinkSync_of_read (fs : Uploads) (path : String) (bytes : List UInt8)
    (h : readFileSync fs path = some bytes) :
    unlinkSync fs path = some (fs.filter fun f => !(f.1 == path)) := by
  unfold unlinkSync
  have : fs.any (fun f => f.1 == path) = true := by
    unfold readFileSync at h
    induction fs with
    | nil => simp at h
    | cons f rest ih =>
      obtain ⟨p, b⟩ := f
      by_cases hp : path = p
      · subst hp; simp
      · have hne : (path == p) = false := by simpa using hp
        rw [List.lookup_cons, hne] at h
        simp [ih h]
  rw [if_pos this]

theorem upload_absent_after_unlink (fs : Uploads) (path : String) :
    path ∉ (fs.filter fun f => !(f.1 == path)).map Prod.fst := by
  intro h
  obtain ⟨f, hf, rfl⟩ := List.mem_map.mp h
  have := (List.mem_filter.mp hf).2
  simp at this

theorem upload_present_of_read (fs : Uploads) (path : String) (bytes : List UInt8)
    (h : readFileSync fs path = some bytes) : path ∈ fs.map Prod.fst := by
  unfold readFileSync at h
  induction fs with
  | nil => simp at h
  | cons f rest ih =>
    obtain ⟨p, b⟩ := f
    by_cases hp : path = p
    · subst hp; simp
    · have hne : (path == p) = false := by simpa using hp
      rw [List.lookup_cons, hne] at h
      simp [ih h]

/-- The run of the handler once the image was read and the labels were obtained. -/
theorem analyzeIngredients_of_labels (env : AnalyzeEnv) (fs : Uploads) (path : String)
    (bytes : List UInt8) (data : VisionData) (labels : List Label)
    (hread : readFileSync fs path = some bytes)
    (hvision : env.visionPost (visionAnnotateUrl env.visionKey) bytes = .ok data)
    (hlabels : labelsOf data = some labels) :
    analyzeIngredients env fs (some path) =
      if ",".intercalate ((detectIngredients labels).map DetectedIngredient.name) != "" &&
          truthyStr env.spoonacularKey then
        match env.httpGet (pipelineSearchUrl
            (",".intercalate ((detectIngredients labels).map DetectedIngredient.name))
            (templateText env.spoonacularKey)) with
        | .error _ =>
          analyzeFailed (fs.filter fun f => !(f.1 == path))
            [.visionAnnotate (visionAnnotateUrl env.visionKey) bytes,
              .httpGet (pipelineSearchUrl
                (",".intercalate ((detectIngredients labels).map DetectedIngredient.name))
                (templateText env.spoonacularKey))]
        | .ok searchData =>
          match projectRecipes searchData with
          | none =>
            analyzeFailed (fs.filter fun f => !(f.1 == path))
              [.visionAnnotate (visionAnnotateUrl env.visionKey) bytes,
                .httpGet (pipelineSearchUrl
                  (",".intercalate ((detectIngredients labels).map DetectedIngredient.name))
                  (templateText env.spoonacularKey))]
          | some recipes =>
            ⟨200, .success (detectIngredients labels) recipes,
              fs.filter fun f => !(f.1 == path),
              [.visionAnnotate (visionAnnotateUrl env.visionKey) bytes,
                .httpGet (pipelineSearchUrl
                  (",".intercalate ((detectIngredients labels).map DetectedIngredient.name))
                  (templateText env.spoonacularKey))]⟩
      else
        ⟨200, .success (detectIngredients labels) [], fs.filter fun f => !(f.1 == path),
          [.visionAnnotate (visionAnnotateUrl env.visionKey) bytes]⟩ := by
  unfold analyzeIngredients
  simp only [hread, hvision, unlinkSync_of_read fs path bytes hread, hlabels]

/-- A 200 answer carries the ingredients detected from the labels of the Vision reply. -/
theorem analyzeIngredients_ok (env : AnalyzeEnv) (fs : Uploads) (file : Option String)
    (h : (analyzeIngredients env fs file).status = 200) :
    ∃ path bytes data labels recipes,
      file = some path ∧ readFileSync fs path = some bytes ∧
      env.visionPost (visionAnnotateUrl env.visionKey) bytes = .ok data ∧
      labelsOf data = some labels ∧
      (analyzeIngredients env fs file).body = .success (detectIngredients labels) recipes := by
  cases file with
  | none => simp [analyzeIngredients] at h
  | some path =>
    cases hread : readFileSync fs path with
    | none => simp [analyzeIngredients, hread, analyzeFailed] at h
    | some bytes =>
      cases hvision : env.visionPost (visionAnnotateUrl env.visionKey) bytes with
      | error e => simp [analyzeIngredients, hread, hvision, analyzeFailed] at h
      | ok data =>
        cases hlabels : labelsOf data with
        | none =>
          simp [analyzeIngredients, hread, hvision, hlabels, analyzeFailed,
            unlinkSync_of_read fs path bytes hread] at h
        | some labels =>
          rw [analyzeIngredients_of_labels env fs path bytes data labels hread hvision hlabels]
            at h ⊢
          by_cases hc : (",".intercalate ((detectIngredients labels).map DetectedIngredient.name)
              != "" && truthyStr env.spoonacularKey) = true
          · rw [if_pos hc] at h ⊢
            cases hget : env.httpGet (pipelineSearchUrl
                (",".intercalate ((detectIngredients labels).map DetectedIngredient.name))
                (templateText env.spoonacularKey)) with
            | error e => simp [hget, analyzeFailed] at h
            | ok searchData =>
              cases hproj : projectRecipes searchData with
              | none => simp [hget, hproj, analyzeFailed] at h
              | some recipes =>
                refine ⟨path, bytes, data, labels, recipes, rfl, hread, hvision, hlabels, ?_⟩
                simp only [hproj]
          · rw [if_neg hc]
            exact ⟨path, bytes, data, labels, [], rfl, hread, hvision, hlabels, rfl⟩


/-- The filter of the pipeline keeps exactly the labels whose score exceeds one half. -/
theorem detectIngredients_eq (labels : List Label) :
    detectIngredients labels =
      (labels.filter fun l => decide (1 / 2 < l.score.toRat)).map fun l =>
        (⟨l.description, mathRound (F64.mul l.score F64.hundred)⟩ : DetectedIngredient) := by
  unfold detectIngredients
  congr 1
  apply List.filter_congr
  intro l _
  rw [← F64.toRat_half]
  by_cases h : F64.half.toRat < l.score.toRat
  · simp [h, (F64.lt_iff _ _).mpr h]
  · have : F64.lt F64.half l.score = false := by
      rw [Bool.eq_false_iff]
      exact fun hc => h ((F64.lt_iff _ _).mp hc)
    simp [h, this]

theorem detectIngredients_nil_of_low (labels : List Label)
    (h : ∀ l ∈ labels, ¬ (1 / 2 < l.score.toRat)) : detectIngredients labels = [] := by
  rw [detectIngredients_eq, List.map_eq_nil_iff, List.filter_eq_nil_iff]
  intro l hl
  simpa using h l hl

/-! ## The ingredient-recognition handler: the claims -/

theorem labelsOf_first (data : VisionData) (labels : List Label)
    (rest : List (Option AnnotateResponse))
    (h : data.responses = some (some ⟨some labels⟩ :: rest)) : labelsOf data = some labels := by
  simp [labelsOf, h]

/-- C5: for every sequence of labels the detected ingredients correspond one to one, in the
order received, to the labels whose score is strictly greater than one half: each has the
description of its label as name and `Math.round(score * 100)` as confidence, the product
being rounded to the nearest binary64 number and then to the nearest integer, and for a
score of at most 1 the confidence is an integer between 0 and 100.  The names are a
subsequence of the descriptions, a label with a score of one half or less is dropped, the
labels apple 0.9 and blur 0.3 give apple with confidence 90, and the ingredients of every
200 answer of the pipeline are the ones detected from the label list of the first
response of the Vision payload. -/
theorem detectIngredients_spec :
    (∀ labels : List Label,
      List.Forall₂
        (fun (l : Label) (i : DetectedIngredient) =>
          i.name = l.description ∧ IsRoundedPercent l.score.toRat i.confidence ∧
          (l.score.toRat ≤ 1 → ∃ c : Int, i.confidence = .int c ∧ 0 ≤ c ∧ c ≤ 100))
        (labels.filter fun l => decide (1 / 2 < l.score.toRat)) (detectIngredients labels) ∧
      List.Sublist ((detectIngredients labels).map DetectedIngredient.name)
        (labels.map Label.description) ∧
      (∀ l rest, l.score.toRat ≤ 1 / 2 →
        detectIngredients (l :: rest) = detectIngredients rest)) ∧
    detectIngredients
        [⟨"apple", ⟨false, 8106479329266893, -53⟩⟩, ⟨"blur", ⟨false, 5404319552844595, -54⟩⟩] =
      [⟨"apple", .int 90⟩] ∧
    (∀ (env : AnalyzeEnv) (fs : Uploads) (file : Option String),
      (analyzeIngredients env fs file).status = 200 →
      ∃ path bytes data recipes,
        file = some path ∧ readFileSync fs path = some bytes ∧
        env.visionPost (visionAnnotateUrl env.visionKey) bytes = .ok data ∧
        ∀ labels rest, data.responses = some (some ⟨some labels⟩ :: rest) →
          (analyzeIngredients env fs file).body =
            .success (detectIngredients labels) recipes) := by
  refine ⟨fun labels => ⟨?_, ?_, ?_⟩, by decide, ?_⟩
  · rw [detectIngredients_eq, List.forall₂_map_right_iff, List.forall₂_same]
    intro l hl
    have hlo : 1 / 2 < l.score.toRat := by simpa using (List.mem_filter.mp hl).2
    refine ⟨rfl, roundedPercent_of_score l.score (by linarith), ?_⟩
    intro hhi
    obtain ⟨c, hc, h50, h100⟩ := F64.mul_hundred_bounds l.score hlo hhi
    exact ⟨c, hc, by omega, h100⟩
  · rw [detectIngredients_eq, List.map_map]
    have : (DetectedIngredient.name ∘ fun l : Label =>
        (⟨l.description, mathRound (F64.mul l.score F64.hundred)⟩ : DetectedIngredient)) =
        Label.description := rfl
    rw [this]
    exact (List.filter_sublist _).map _
  · intro l rest hl
    rw [detectIngredients_eq, detectIngredients_eq, List.filter_cons_of_neg]
    simpa using hl
  · intro env fs file h
    obtain ⟨path, bytes, data, labels0, recipes, hfile, hread, hvision, hlabels, hbody⟩ :=
      analyzeIngredients_ok env fs file h
    refine ⟨path, bytes, data, recipes, hfile, hread, hvision, ?_⟩
    intro labels rest hshape
    have := labelsOf_first data labels rest hshape
    rw [hlabels] at this
    injection this with this
    rw [← this]
    exact hbody

/-- C6: a request whose image was stored as `uploads/3f2a` and whose label-detection call
is rejected is answered with 500 while the file is still in the upload directory; the same
request with a successful label-detection call leaves the directory empty. -/
theorem analyzeIngredients_vision_failure_keeps_upload :
    analyzeIngredients
        ⟨some "VK", some "SK", fun _ _ => .error ⟨"Request failed with status code 403", none⟩,
          fun _ => .ok (some [])⟩
        [("uploads/3f2a", [255, 216, 255])] (some "uploads/3f2a") =
      ⟨500, .failure "Failed to analyze image or fetch recipes",
        [("uploads/3f2a", [255, 216, 255])],
        [.visionAnnotate "https://vision.googleapis.com/v1/images:annotate?key=VK"
          [255, 216, 255]]⟩ ∧
    (analyzeIngredients
        ⟨some "VK", some "SK", fun _ _ => .ok ⟨some []⟩, fun _ => .ok (some [])⟩
        [("uploads/3f2a", [255, 216, 255])] (some "uploads/3f2a")).uploads = [] := by
  decide

/-- Whenever the label-detection call of a request carrying an image is rejected, the
handler leaves the upload directory as it found it. -/
theorem analyzeIngredients_upload_kept (env : AnalyzeEnv) (fs : Uploads) (path : String)
    (bytes : List UInt8) (e : UpstreamError)
    (hread : readFileSync fs path = some bytes)
    (hvision : env.visionPost (visionAnnotateUrl env.visionKey) bytes = .error e) :
    (analyzeIngredients env fs (some path)).status = 500 ∧
    (analyzeIngredients env fs (some path)).uploads = fs ∧
    path ∈ (analyzeIngredients env fs (some path)).uploads.map Prod.fst := by
  have h : analyzeIngredients env fs (some path) =
      analyzeFailed fs [.visionAnnotate (visionAnnotateUrl env.visionKey) bytes] := by
    unfold analyzeIngredients
    simp only [hread, hvision]
  rw [h]
  exact ⟨rfl, rfl, upload_present_of_read fs path bytes hread⟩

/-- C7 as stated fails: one retained label whose description is the empty string, with a
recipe-search key configured and a search service that would return a match, makes the
list of retained ingredients non-empty, yet the pipeline issues no search and answers with
no recipes. -/
theorem analyzeIngredients_empty_name_no_search :
    detectIngredients [⟨"", ⟨false, 8106479329266893, -53⟩⟩] ≠ [] ∧
    analyzeIngredients
        ⟨some "VK", some "SK",
          fun _ _ => .ok ⟨some [some ⟨some [⟨"", ⟨false, 8106479329266893, -53⟩⟩]⟩]⟩,
          fun _ => .ok (some [some ⟨some 1, some "Pie", none, some [], some []⟩])⟩
        [("uploads/3f2a", [255, 216, 255])] (some "uploads/3f2a") =
      ⟨200, .success [⟨"", .int 90⟩] [], [],
        [.visionAnnotate "https://vision.googleapis.com/v1/images:annotate?key=VK"
          [255, 216, 255]]⟩ := by
  decide

/-- C7, amended: when the retained ingredients are neither none nor a single ingredient
with the empty name, and the recipe-search key is a non-empty string, the pipeline calls
the recipe search exactly once, after the label detection, at the URL that carries the
escaped comma-joined names, `number=5` and the key; and when that call returns a payload
the projection can read, the answer is 200 with the detected ingredients and the projected
recipes. -/
theorem analyzeIngredients_search_invoked (env : AnalyzeEnv) (fs : Uploads) (path : String)
    (bytes : List UInt8) (data : VisionData) (labels : List Label) (key : String)
    (hread : readFileSync fs path = some bytes)
    (hvision : env.visionPost (visionAnnotateUrl env.visionKey) bytes = .ok data)
    (hlabels : labelsOf data = some labels)
    (hsome : detectIngredients labels ≠ [])
    (hname : (detectIngredients labels).map DetectedIngredient.name ≠ [""])
    (hkey : env.spoonacularKey = some key) (hkeyne : key ≠ "") :
    (analyzeIngredients env fs (some path)).calls =
      [.visionAnnotate (visionAnnotateUrl env.visionKey) bytes,
        .httpGet ("https://api.spoonacular.com/recipes/findByIngredients?ingredients=" ++
          encodeURIComponent
            (",".intercalate ((detectIngredients labels).map DetectedIngredient.name)) ++
          "&number=5&apiKey=" ++ key)] ∧
    ∀ searchData recipes,
      env.httpGet ("https://api.spoonacular.com/recipes/findByIngredients?ingredients=" ++
          encodeURIComponent
            (",".intercalate ((detectIngredients labels).map DetectedIngredient.name)) ++
          "&number=5&apiKey=" ++ key) = .ok searchData →
      projectRecipes searchData = some recipes →
      (analyzeIngredients env fs (some path)).status = 200 ∧
      (analyzeIngredients env fs (some path)).body =
        .success (detectIngredients labels) recipes := by
  have hjoin : ",".intercalate ((detectIngredients labels).map DetectedIngredient.name) ≠ "" := by
    intro hc
    rcases (intercalate_comma_eq_empty _).mp hc with h | h
    · exact hsome (List.map_eq_nil_iff.mp h)
    · exact hname h
  have hcond : (",".intercalate ((detectIngredients labels).map DetectedIngredient.name) != "" &&
      truthyStr env.spoonacularKey) = true := by
    simp [hjoin, hkey, truthyStr, hkeyne]
  have hurl : pipelineSearchUrl
      (",".intercalate ((detectIngredients labels).map DetectedIngredient.name))
      (templateText env.spoonacularKey) =
      "https://api.spoonacular.com/recipes/findByIngredients?ingredients=" ++
          encodeURIComponent
            (",".intercalate ((detectIngredients labels).map DetectedIngredient.name)) ++
          "&number=5&apiKey=" ++ key := by
    simp [pipelineSearchUrl, hkey, templateText]
  rw [analyzeIngredients_of_labels env fs path bytes data labels hread hvision hlabels,
    if_pos hcond, hurl]
  constructor
  · cases env.httpGet _ with
    | error e => rfl
    | ok searchData =>
      cases hp : projectRecipes searchData <;> simp only [hp, analyzeFailed]
  · intro searchData recipes hget hproj
    simp only [hget, hproj, and_self]

/-- C8: when the Vision payload has its `responses` array and no label of it has a score
above one half (the label list may be empty or missing), the pipeline answers 200 with no
ingredients and no recipes, the only outbound call being the label detection. -/
theorem analyzeIngredients_no_ingredients (env : AnalyzeEnv) (fs : Uploads) (path : String)
    (bytes : List UInt8) (data : VisionData) (rs : List (Option AnnotateResponse))
    (hread : readFileSync fs path = some bytes)
    (hvision : env.visionPost (visionAnnotateUrl env.visionKey) bytes = .ok data)
    (hresp : data.responses = some rs)
    (hlow : ∀ labels, labelsOf data = some labels →
      ∀ l ∈ labels, ¬ (1 / 2 < l.score.toRat)) :
    (analyzeIngredients env fs (some path)).status = 200 ∧
    (analyzeIngredients env fs (some path)).body = .success [] [] ∧
    (analyzeIngredients env fs (some path)).calls =
      [.visionAnnotate (visionAnnotateUrl env.visionKey) bytes] ∧
    ∀ url, OutboundCall.httpGet url ∉ (analyzeIngredients env fs (some path)).calls := by
  obtain ⟨labels, hlabels⟩ : ∃ labels, labelsOf data = some labels := by
    unfold labelsOf
    rw [hresp]
    rcases rs with _ | ⟨_ | r, _⟩
    · exact ⟨_, rfl⟩
    · exact ⟨_, rfl⟩
    · cases h : r.labelAnnotations with
      | none => exact ⟨[], by simp [h]⟩
      | some ls => exact ⟨ls, by simp [h]⟩
  have hnil := detectIngredients_nil_of_low labels (hlow labels hlabels)
  rw [analyzeIngredients_of_labels env fs path bytes data labels hread hvision hlabels, hnil]
  simp [String.intercalate]

/-- C9: no partial results.  If the label-detection call the handler made was rejected or
returned a payload without labels to read, or the recipe-search call it made was rejected
or returned a payload the projection cannot read, the answer is the 500 failure with its
fixed message; that body has no ingredients and no recipes. -/
theorem analyzeIngredients_all_or_nothing (env : AnalyzeEnv) (fs : Uploads)
    (file : Option String)
    (h : (∃ url image, OutboundCall.visionAnnotate url image ∈
            (analyzeIngredients env fs file).calls ∧
          visionCallFails (env.visionPost url image) = true) ∨
        (∃ url, OutboundCall.httpGet url ∈ (analyzeIngredients env fs file).calls ∧
          searchCallFails (env.httpGet url) = true)) :
    (analyzeIngredients env fs file).status = 500 ∧
    (analyzeIngredients env fs file).body =
      .failure "Failed to analyze image or fetch recipes" := by
  cases file with
  | none => simp [analyzeIngredients] at h
  | some path =>
    cases hread : readFileSync fs path with
    | none => simp [analyzeIngredients, hread, analyzeFailed]
    | some bytes =>
      cases hvision : env.visionPost (visionAnnotateUrl env.visionKey) bytes with
      | error e => simp [analyzeIngredients, hread, hvision, analyzeFailed]
      | ok data =>
        cases hlabels : labelsOf data with
        | none =>
          simp [analyzeIngredients, hread, hvision, hlabels, analyzeFailed,
            unlinkSync_of_read fs path bytes hread]
        | some labels =>
          rw [analyzeIngredients_of_labels env fs path bytes data labels hread hvision hlabels]
            at h ⊢
          by_cases hc : (",".intercalate ((detectIngredients labels).map DetectedIngredient.name)
              != "" && truthyStr env.spoonacularKey) = true
          · rw [if_pos hc] at h ⊢
            cases hget : env.httpGet (pipelineSearchUrl
                (",".intercalate ((detectIngredients labels).map DetectedIngredient.name))
                (templateText env.spoonacularKey)) with
            | error e => exact ⟨rfl, rfl⟩
            | ok searchData =>
              cases hproj : projectRecipes searchData with
              | none => simp only [hproj]; exact ⟨rfl, rfl⟩
              | some recipes =>
                exfalso
                simp only [hget, hproj, List.mem_cons, OutboundCall.visionAnnotate.injEq,
                  List.mem_singleton, reduceCtorEq, or_false, false_or, List.not_mem_nil,
                  OutboundCall.httpGet.injEq] at h
                rcases h with ⟨url, image, ⟨rfl, rfl⟩, hf⟩ | ⟨url, rfl, hf⟩
                · simp [visionCallFails, hvision, hlabels] at hf
                · simp [searchCallFails, hget, hproj] at hf
          · rw [if_neg hc] at h
            exfalso
            simp only [List.mem_singleton, OutboundCall.visionAnnotate.injEq, reduceCtorEq,
              false_and, exists_false, or_false] at h
            obtain ⟨url, image, ⟨rfl, rfl⟩, hf⟩ := h
            simp [visionCallFails, hvision, hlabels] at hf

/-! ## The chatbot handler: the claims -/

/-- C10: a chatbot request whose message is absent or the empty string is answered with
status 400 and the error "Message is required", and no request is sent to the
conversational service. -/
theorem chatbot_message_required (env : ChatEnv) (message : Option String)
    (h : message = none ∨ message = some "") :
    chatbot env message = ⟨400, .error "Message is required", []⟩ := by
  rcases h with h | h <;> subst h <;> rfl

/-! ## Witnesses -/

/-- An add without `recipeId`, sent while the store is down, is refused with 400 and leaves
the sample table as it was. -/
theorem postFavorites_missing_field_witness :
    (⟨some "u1", none, some "Stew", none, none, none⟩ : AddBody).recipeId = none ∧
    postFavorites (some "connection lost") 20 sampleTable
        ⟨some "u1", none, some "Stew", none, none, none⟩ =
      ⟨400, .error "Missing required fields", sampleTable⟩ :=
  ⟨rfl, postFavorites_missing_field (some "connection lost") 20 sampleTable
    ⟨some "u1", none, some "Stew", none, none, none⟩ (Or.inr (Or.inl rfl))⟩

/-- A complete add on the sample table is answered with 201 and a fresh row that the list
of the user then contains. -/
theorem postFavorites_then_getFavorites_witness :
    sampleTable.WellFormed ∧
    (postFavorites none 20 sampleTable sampleAdd).status = 201 ∧
    ∃ row rows,
      (postFavorites none 20 sampleTable sampleAdd).body = .favorite row ∧
      getFavorites none (postFavorites none 20 sampleTable sampleAdd).table "u1" =
        ⟨200, .favorites rows, (postFavorites none 20 sampleTable sampleAdd).table⟩ ∧
      row ∈ rows ∧
      row.userId = "u1" ∧ row.recipeId = 9 ∧ row.title = "Stew" ∧
      row.image = sampleAdd.image ∧ row.cookTime = sampleAdd.cookTime ∧
      row.servings = sampleAdd.servings ∧
      ∀ old ∈ sampleTable.rows, old.id ≠ row.id :=
  have h := postFavorites_then_getFavorites none 20 sampleTable sampleAdd "u1" 9 "Stew"
    (by decide) rfl (by decide) rfl (by decide) rfl (by decide)
  ⟨by decide, h.1 rfl, h.2 (h.1 rfl)⟩

/-- The detected ingredients of the labels apple 0.9 and blur 0.3 correspond to the apple
label alone, and the sample run answers 200 with them. -/
theorem detectIngredients_spec_witness :
    List.Forall₂
      (fun (l : Label) (i : DetectedIngredient) =>
        i.name = l.description ∧ IsRoundedPercent l.score.toRat i.confidence ∧
        (l.score.toRat ≤ 1 → ∃ c : Int, i.confidence = .int c ∧ 0 ≤ c ∧ c ≤ 100))
      ([appleLabel, blurLabel].filter fun l => decide (1 / 2 < l.score.toRat))
      (detectIngredients [appleLabel, blurLabel]) ∧
    (analyzeIngredients sampleEnv sampleUploads (some "uploads/3f2a")).status = 200 ∧
    ∃ path bytes data recipes,
      some "uploads/3f2a" = some path ∧ readFileSync sampleUploads path = some bytes ∧
      sampleEnv.visionPost (visionAnnotateUrl sampleEnv.visionKey) bytes = .ok data ∧
      ∀ labels rest, data.responses = some (some ⟨some labels⟩ :: rest) →
        (analyzeIngredients sampleEnv sampleUploads (some "uploads/3f2a")).body =
          .success (detectIngredients labels) recipes :=
  ⟨(detectIngredients_spec.1 [appleLabel, blurLabel]).1, by decide,
    detectIngredients_spec.2.2 sampleEnv sampleUploads (some "uploads/3f2a") (by decide)⟩

/-- With the labels apple and blur and the key `SK`, the sample run calls the recipe search
for `apple` and answers with the projected match. -/
theorem analyzeIngredients_search_invoked_witness :
    detectIngredients [appleLabel, blurLabel] ≠ [] ∧
    (analyzeIngredients sampleEnv sampleUploads (some "uploads/3f2a")).calls =
      [.visionAnnotate (visionAnnotateUrl sampleEnv.visionKey) [255, 216, 255],
        .httpGet ("https://api.spoonacular.com/recipes/findByIngredients?ingredients=" ++
          encodeURIComponent
            (",".intercalate
              ((detectIngredients [appleLabel, blurLabel]).map DetectedIngredient.name)) ++
          "&number=5&apiKey=" ++ "SK")] ∧
    (analyzeIngredients sampleEnv sampleUploads (some "uploads/3f2a")).status = 200 ∧
    (analyzeIngredients sampleEnv sampleUploads (some "uploads/3f2a")).body =
      .success (detectIngredients [appleLabel, blurLabel])
        [⟨some 1, some "Pie", none, [some "apple"], [some "flour"]⟩] :=
  have h := analyzeIngredients_search_invoked sampleEnv sampleUploads "uploads/3f2a"
    [255, 216, 255] ⟨some [some ⟨some [appleLabel, blurLabel]⟩]⟩ [appleLabel, blurLabel] "SK"
    rfl rfl rfl (by decide) (by decide) rfl (by decide)
  ⟨by decide, h.1, h.2 (some [some sampleMatch])
    [⟨some 1, some "Pie", none, [some "apple"], [some "flour"]⟩] rfl rfl⟩

/-- With scores 0.3 and 0.5 only, the run answers 200 with empty lists and makes no search
call. -/
theorem analyzeIngredients_no_ingredients_witness :
    (∀ l ∈ [blurLabel, halfLabel], ¬ (1 / 2 < l.score.toRat)) ∧
    (analyzeIngredients lowEnv sampleUploads (some "uploads/3f2a")).status = 200 ∧
    (analyzeIngredients lowEnv sampleUploads (some "uploads/3f2a")).body = .success [] [] ∧
    (analyzeIngredients lowEnv sampleUploads (some "uploads/3f2a")).calls =
      [.visionAnnotate (visionAnnotateUrl lowEnv.visionKey) [255, 216, 255]] ∧
    ∀ url, OutboundCall.httpGet url ∉
      (analyzeIngredients lowEnv sampleUploads (some "uploads/3f2a")).calls :=
  have hlow : ∀ l ∈ [blurLabel, halfLabel], ¬ (1 / 2 < l.score.toRat) := by
    intro l hl
    simp only [List.mem_cons, List.mem_singleton, List.not_mem_nil, or_false] at hl
    rcases hl with rfl | rfl <;>
      norm_num [F64.toRat, F64.signedMant, blurLabel, halfLabel]
  ⟨hlow, analyzeIngredients_no_ingredients lowEnv sampleUploads "uploads/3f2a"
    [255, 216, 255] ⟨some [some ⟨some [blurLabel, halfLabel]⟩, some ⟨none⟩]⟩
    [some ⟨some [blurLabel, halfLabel]⟩, some ⟨none⟩] rfl rfl rfl
    (fun labels h => by
      have : labels = [blurLabel, halfLabel] := by
        simpa [labelsOf] using h.symm
      rw [this]
      exact hlow)⟩

/-- Apple is detected, the recipe search is rejected: the answer is the 500 failure, without
the detected ingredient. -/
theorem analyzeIngredients_all_or_nothing_witness :
    detectIngredients [appleLabel, blurLabel] = [⟨"apple", .int 90⟩] ∧
    (analyzeIngredients searchDownEnv sampleUploads (some "uploads/3f2a")).status = 500 ∧
    (analyzeIngredients searchDownEnv sampleUploads (some "uploads/3f2a")).body =
      .failure "Failed to analyze image or fetch recipes" :=
  ⟨by decide, analyzeIngredients_all_or_nothing searchDownEnv sampleUploads
    (some "uploads/3f2a")
    (Or.inr ⟨"https://api.spoonacular.com/recipes/findByIngredients?ingredients=apple&number=5&apiKey=SK",
      by decide, by decide⟩)⟩

/-- An empty and an absent message are refused with 400 and no outbound call, while a
non-empty message does reach the conversational service. -/
theorem chatbot_message_required_witness :
    chatbot sampleChatEnv (some "") = ⟨400, .error "Message is required", []⟩ ∧
    chatbot sampleChatEnv none = ⟨400, .error "Message is required", []⟩ ∧
    (chatbot sampleChatEnv (some "hello")).calls ≠ [] :=
  ⟨chatbot_message_required sampleChatEnv (some "") (Or.inr rfl),
    chatbot_message_required sampleChatEnv none (Or.inl rfl), by decide⟩


/-! ## Tag stripping -/

theorem stripTagsFrom_skip (n : Nat) : ∀ l : List Char,
    stripTagsFrom n l = stripTagsFrom 0 (l.drop n) := by
  induction n with
  | zero => intro l; rfl
  | succ k ih =>
    intro l
    cases l with
    | nil => rfl
    | cons c rest => simp only [stripTagsFrom, List.drop_succ_cons]; exact ih rest

theorem closeIndex_none (l : List Char) : closeIndex l = none ↔ '>' ∉ l := by
  induction l with
  | nil => simp [closeIndex]
  | cons d ds ih =>
    by_cases hd : d = '>'
    · simp [closeIndex, hd]
    · have hd2 : ¬ '>' = d := fun h => hd h.symm
      simp [closeIndex, hd, hd2, ih]

theorem closeIndex_some (l : List Char) (n : Nat) (h : closeIndex l = some n) :
    ∃ body post, l = body ++ '>' :: post ∧ '>' ∉ body ∧ n = body.length + 1 := by
  induction l generalizing n with
  | nil => simp [closeIndex] at h
  | cons d ds ih =>
    by_cases hd : d = '>'
    · simp only [closeIndex, hd, if_true, Option.some.injEq] at h
      exact ⟨[], ds, by simp [hd], by simp, by simp [← h]⟩
    · simp only [closeIndex, hd, if_false, Option.map_eq_some'] at h
      obtain ⟨k, hk, rfl⟩ := h
      obtain ⟨body, post, rfl, hb, rfl⟩ := ih k hk
      have hd2 : ¬ '>' = d := fun h => hd h.symm
      exact ⟨d :: body, post, by simp, by simp [hd2, hb], by simp⟩

theorem tagLength_some (l : List Char) (n : Nat) (h : tagLength l = some n) :
    ∃ body post, l = body ++ '>' :: post ∧ body ≠ [] ∧ '>' ∉ body ∧ n = body.length + 1 := by
  cases l with
  | nil => simp [tagLength] at h
  | cons d ds =>
    by_cases hd : d = '>'
    · simp [tagLength, hd] at h
    · simp only [tagLength, hd, if_false, Option.map_eq_some'] at h
      obtain ⟨k, hk, rfl⟩ := h
      obtain ⟨body, post, rfl, hb, rfl⟩ := closeIndex_some ds k hk
      have hd2 : ¬ '>' = d := fun h => hd h.symm
      exact ⟨d :: body, post, by simp, by simp, by simp [hd2, hb], by simp⟩

theorem tagLength_none (l : List Char) (h : tagLength l = none) :
    l = [] ∨ (∃ t, l = '>' :: t) ∨ '>' ∉ l := by
  cases l with
  | nil => exact Or.inl rfl
  | cons d ds =>
    by_cases hd : d = '>'
    · exact Or.inr (Or.inl ⟨ds, by rw [hd]⟩)
    · simp only [tagLength, hd, if_false, Option.map_eq_none'] at h
      have hd2 : ¬ '>' = d := fun h => hd h.symm
      exact Or.inr (Or.inr (by simp [hd2, (closeIndex_none ds).mp h]))

theorem tagLength_of_tag (body post : List Char) (hne : body ≠ []) (hb : '>' ∉ body) :
    tagLength (body ++ '>' :: post) = some (body.length + 1) := by
  have hclose : ∀ b : List Char, '>' ∉ b → closeIndex (b ++ '>' :: post) = some (b.length + 1) := by
    intro b
    induction b with
    | nil => intro _; simp [closeIndex]
    | cons d ds ih =>
      intro h
      have hd : ¬ d = '>' := fun hc => h (by simp [hc])
      have hds : '>' ∉ ds := fun hc => h (List.mem_cons_of_mem _ hc)
      simp [closeIndex, hd, ih hds]
  cases body with
  | nil => exact absurd rfl hne
  | cons d ds =>
    have hd : ¬ d = '>' := fun hc => hb (by simp [hc])
    have hds : '>' ∉ ds := fun hc => hb (List.mem_cons_of_mem _ hc)
    simp [tagLength, hd, hclose ds hds]

theorem stripTagsFrom_of_no_gt (l : List Char) (h : '>' ∉ l) : stripTagsFrom 0 l = l := by
  induction l with
  | nil => rfl
  | cons c rest ih =>
    have hrest : '>' ∉ rest := fun hc => h (List.mem_cons_of_mem _ hc)
    have hlen : tagLength rest = none := by
      cases rest with
      | nil => rfl
      | cons d ds =>
        have hd : ¬ d = '>' := fun hc => hrest (by simp [hc])
        have hds : '>' ∉ ds := fun hc => hrest (List.mem_cons_of_mem _ hc)
        simp [tagLength, hd, (closeIndex_none ds).mpr hds]
    simp only [stripTagsFrom, hlen, ih hrest]
    split <;> rfl

theorem stripTagsFrom_of_no_lt (l : List Char) (h : '<' ∉ l) : stripTagsFrom 0 l = l := by
  induction l with
  | nil => rfl
  | cons c rest ih =>
    have hc : ¬ c = '<' := fun hc => h (by simp [hc])
    have hrest : '<' ∉ rest := fun hc => h (List.mem_cons_of_mem _ hc)
    simp only [stripTagsFrom, hc, if_false, ih hrest]

theorem hasTagB_stripTagsFrom_aux (n : Nat) : ∀ l : List Char, l.length ≤ n →
    hasTagB (stripTagsFrom 0 l) = false := by
  induction n with
  | zero =>
    intro l hl
    have : l = [] := List.length_eq_zero.mp (Nat.le_zero.mp hl)
    subst this
    rfl
  | succ n ih =>
    intro l hl
    cases l with
    | nil => rfl
    | cons c rest =>
      have hlen0 : rest.length ≤ n := by simpa using hl
      have hrest : hasTagB (stripTagsFrom 0 rest) = false := ih rest hlen0
      by_cases hc : c = '<'
      · cases hlen : tagLength rest with
        | none =>
          have hstep : stripTagsFrom 0 (c :: rest) = c :: stripTagsFrom 0 rest := by
            simp only [stripTagsFrom, hc, if_true, hlen]
          have hnone : tagLength (stripTagsFrom 0 rest) = none := by
            rcases tagLength_none rest hlen with h | ⟨t, h⟩ | h
            · subst h; rfl
            · subst h
              have : stripTagsFrom 0 ('>' :: t) = '>' :: stripTagsFrom 0 t := by
                simp [stripTagsFrom]
              rw [this]
              simp [tagLength]
            · rw [stripTagsFrom_of_no_gt rest h, hlen]
          rw [hstep]
          simp [hasTagB, hnone, hrest]
        | some k =>
          have hstep : stripTagsFrom 0 (c :: rest) = stripTagsFrom 0 (rest.drop k) := by
            simp only [stripTagsFrom, hc, if_true, hlen]
            exact stripTagsFrom_skip k rest
          rw [hstep]
          exact ih (rest.drop k) (by simp; omega)
      · have hstep : stripTagsFrom 0 (c :: rest) = c :: stripTagsFrom 0 rest := by
          simp only [stripTagsFrom, hc, if_false]
        rw [hstep]
        simp [hasTagB, hc, hrest]

/-- After the replace the pattern matches nowhere. -/
theorem hasTagB_stripTagsFrom (l : List Char) : hasTagB (stripTagsFrom 0 l) = false :=
  hasTagB_stripTagsFrom_aux l.length l le_rfl

/-- An input in which the pattern matches nowhere is left as it is. -/
theorem stripTagsFrom_of_not_hasTagB (l : List Char) (h : hasTagB l = false) :
    stripTagsFrom 0 l = l := by
  induction l with
  | nil => rfl
  | cons c rest ih =>
    simp only [hasTagB, Bool.or_eq_false_iff, Bool.and_eq_false_imp, beq_iff_eq] at h
    obtain ⟨h1, h2⟩ := h
    by_cases hc : c = '<'
    · have hlen : tagLength rest = none := by
        have := h1 hc
        cases hl : tagLength rest with
        | none => rfl
        | some k => simp [hl] at this
      simp only [stripTagsFrom, hc, if_true, hlen, ih h2]
    · simp only [stripTagsFrom, hc, if_false, ih h2]

theorem hasTagB_iff (l : List Char) : hasTagB l = true ↔ HasTag l := by
  constructor
  · intro h
    induction l with
    | nil => simp [hasTagB] at h
    | cons c rest ih =>
      simp only [hasTagB, Bool.or_eq_true, Bool.and_eq_true, beq_iff_eq] at h
      rcases h with ⟨hc, hsome⟩ | h
      · obtain ⟨k, hk⟩ := Option.isSome_iff_exists.mp hsome
        obtain ⟨body, post, hl, hne, hb, _⟩ := tagLength_some rest k hk
        exact ⟨[], body, post, by simp [hc, hl], hne, hb⟩
      · obtain ⟨pre, body, post, hl, hne, hb⟩ := ih h
        exact ⟨c :: pre, body, post, by simp [hl], hne, hb⟩
  · rintro ⟨pre, body, post, rfl, hne, hb⟩
    induction pre with
    | nil =>
      have : tagLength (body ++ '>' :: post) = some (body.length + 1) :=
        tagLength_of_tag body post hne hb
      simp [hasTagB, this]
    | cons p pre ih =>
      simp only [List.cons_append, hasTagB, Bool.or_eq_true]
      right
      simpa using ih


theorem stripTagsFrom_sublist : ∀ (l : List Char) (n : Nat),
    List.Sublist (stripTagsFrom n l) l := by
  intro l
  induction l with
  | nil => intro n; cases n <;> exact List.Sublist.refl _
  | cons c rest ih =>
    intro n
    cases n with
    | succ k => exact (ih k).cons c
    | zero =>
      simp only [stripTagsFrom]
      split
      · split
        · exact (ih _).cons c
        · exact (ih 0).cons₂ c
      · exact (ih 0).cons₂ c

/-! ## The chatbot handler: extraction -/

theorem firstCandidateText_eq_some_iff (data : GeminiData) (t : String) :
    firstCandidateText data = some t ↔ FirstTextPart data t := by
  obtain ⟨candidates⟩ := data
  unfold firstCandidateText FirstTextPart
  rcases candidates with _ | _ | ⟨_ | ⟨_ | ⟨_ | _ | ⟨_ | ⟨_ | text⟩, ps⟩⟩⟩, cs⟩ <;> simp

/-! ## The recipe-search handler -/

theorem mapM_option_length {α β : Type} (f : α → Option β) :
    ∀ (l : List α) (r : List β), l.mapM f = some r → r.length = l.length := by
  intro l
  induction l with
  | nil =>
    intro r h
    rw [List.mapM_nil] at h
    injection h with h
    subst h
    rfl
  | cons a as ih =>
    intro r h
    rw [List.mapM_cons] at h
    cases hfa : f a with
    | none => simp only [hfa, bind, Option.bind] at h; exact absurd h (by simp)
    | some b =>
      cases hrest : as.mapM f with
      | none => simp only [hfa, hrest, bind, Option.bind] at h; exact absurd h (by simp)
      | some bs =>
        simp only [hfa, hrest, bind, Option.bind, pure] at h
        injection h with h
        subst h
        simp [ih bs hrest]

theorem ingredientNames_wellFormed (names : List String) :
    ingredientNames (some (names.map fun n => some ⟨some n⟩)) = some (names.map some) := by
  unfold ingredientNames
  induction names with
  | nil => rfl
  | cons n ns ih =>
    simp only [List.map_cons, List.mapM_cons]
    simp only at ih
    rw [ih]
    rfl

/-- The projection of the code on a well-formed payload is the summary of each match. -/
theorem projectRecipes_wellFormed (ms : List WellFormedMatch) :
    projectRecipes (wellFormedPayload ms) = some (ms.map summaryOf) := by
  unfold projectRecipes wellFormedPayload
  induction ms with
  | nil => rfl
  | cons m rest ih =>
    simp only [List.map_cons, List.mapM_cons]
    simp only at ih
    rw [ih]
    simp [projectRecipe, WellFormedMatch.toJson, ingredientNames_wellFormed, summaryOf]

/-- The run of the recipe-search handler on a non-empty array. -/
theorem recipesByIngredients_of_array (apiKey : Option String)
    (httpGet : String → Except UpstreamError SearchData) (item : String)
    (items : List String) :
    recipesByIngredients apiKey httpGet (.array (item :: items)) =
      match httpGet (searchUrl (item :: items) apiKey) with
      | .error _ =>
        ⟨500, .failure "Failed to fetch recipes", [.httpGet (searchUrl (item :: items) apiKey)]⟩
      | .ok data =>
        match projectRecipes data with
        | none =>
          ⟨500, .failure "Failed to fetch recipes",
            [.httpGet (searchUrl (item :: items) apiKey)]⟩
        | some recipes =>
          ⟨200, .success recipes, [.httpGet (searchUrl (item :: items) apiKey)]⟩ := by
  simp [recipesByIngredients, IngredientsField.asArray, IngredientsField.truthy]


/-! ## The chatbot handler: the reply -/

/-- C11: for every non-empty message and every reply of the conversational service whose
payload is not the JSON value `null` (reading `candidates` off `null` throws, the
malformed envelope), the chatbot answers 200.  For an object payload the reply is the text
of the first part of the first candidate when that text exists and is non-empty, and the
literal fallback when no such text exists (no candidates, an empty list, a missing
content, parts or text) or the text is empty; for a payload that is no object the reply is
the fallback. -/
theorem chatbot_reply (env : ChatEnv) (m : String) (payload : GeminiPayload) (hm : m ≠ "")
    (hreply : env.geminiPost (geminiUrl env.geminiKey) m = .ok payload)
    (hpayload : payload ≠ .null) :
    (chatbot env (some m)).status = 200 ∧
    (∀ data, payload = .object data →
      (∀ t, FirstTextPart data t → t ≠ "" → (chatbot env (some m)).body = .reply t) ∧
      ((∀ t, FirstTextPart data t → t = "") →
        (chatbot env (some m)).body = .reply "Sorry, I couldn't understand that.")) ∧
    (payload = .other →
      (chatbot env (some m)).body = .reply "Sorry, I couldn't understand that.") := by
  have hrun : ∀ data, payloadCandidates payload = some data → chatbot env (some m) =
      ⟨200, .reply (if truthyStr (firstCandidateText data) then
          templateText (firstCandidateText data) else "Sorry, I couldn't understand that."),
        [.geminiGenerate (geminiUrl env.geminiKey) m]⟩ := by
    intro data hdata
    have hcond : (!truthyStr (some m)) = false := by simp [truthyStr, hm]
    have hcall : env.geminiPost (geminiUrl env.geminiKey) (templateText (some m)) =
        .ok payload := hreply
    unfold geminiUrl at hcall
    unfold chatbot
    simp only [hcond, Bool.false_eq_true, if_false, hcall, hdata]
    rfl
  refine ⟨?_, ?_, ?_⟩
  · cases payload with
    | null => exact absurd rfl hpayload
    | other => rw [hrun _ rfl]
    | object data => rw [hrun _ rfl]
  · intro data hobj
    subst hobj
    rw [hrun data rfl]
    constructor
    · intro t ht hne
      have := (firstCandidateText_eq_some_iff data t).mpr ht
      simp [this, truthyStr, templateText, hne]
    · intro hnone
      cases hx : firstCandidateText data with
      | none => simp [truthyStr]
      | some t =>
        have := hnone t ((firstCandidateText_eq_some_iff data t).mp hx)
        simp [truthyStr, this]
  · intro hother
    subst hother
    rw [hrun ⟨none⟩ rfl]
    rfl

/-! ## The recipe-search handler: the claims -/

/-- C12: a body whose `ingredients` field is absent, is a JSON value other than an array,
or is the empty array is answered with 400 and "Ingredients array is required" and no
request is sent to the recipe-search service; for every non-empty array the validation
passes, that is the answer is not 400 and the search service is called. -/
theorem recipesByIngredients_validation (apiKey : Option String)
    (httpGet : String → Except UpstreamError SearchData) (ingredients : IngredientsField) :
    ((ingredients = .absent ∨ (∀ items, ingredients ≠ .array items) ∨
        ingredients = .array []) →
      recipesByIngredients apiKey httpGet ingredients =
        ⟨400, .failure "Ingredients array is required", []⟩) ∧
    (∀ item items, ingredients = .array (item :: items) →
      (recipesByIngredients apiKey httpGet ingredients).status ≠ 400 ∧
      (recipesByIngredients apiKey httpGet ingredients).calls =
        [.httpGet (searchUrl (item :: items) apiKey)]) := by
  constructor
  · intro h
    cases ingredients with
    | array items =>
      rcases h with h | h | h
      · cases h
      · exact absurd rfl (h items)
      · injection h with h
        subst h
        rfl
    | _ => rfl
  · intro item items h
    subst h
    rw [recipesByIngredients_of_array]
    cases httpGet (searchUrl (item :: items) apiKey) with
    | error e => simp
    | ok data =>
      cases hp : projectRecipes data <;> simp [hp]

/-- C13 as stated fails: for the ingredients egg and milk and a search service that
answers with six matches, the handler answers 200 with six recipes. -/
theorem recipesByIngredients_six_results :
    recipesByIngredients (some "SK") (fun _ => .ok (some (List.replicate 6 (some sampleMatch))))
        (.array ["egg", "milk"]) =
      ⟨200, .success (List.replicate 6 ⟨some 1, some "Pie", none, [some "apple"], [some "flour"]⟩),
        [.httpGet "https://api.spoonacular.com/recipes/findByIngredients?ingredients=egg,milk&number=5&apiKey=SK"]⟩ ∧
    ¬ (List.replicate 6
        (⟨some 1, some "Pie", none, [some "apple"], [some "flour"]⟩ : RecipeSummary)).length ≤ 5 := by
  decide

/-- C13, amended: whenever the handler answers with recipes, the ingredients were a
non-empty array, the search service was asked once with `number=5`, and the recipes are as
many as the matches the service returned; they are at most 5 whenever the service
returned at most 5 matches. -/
theorem recipesByIngredients_length (apiKey : Option String)
    (httpGet : String → Except UpstreamError SearchData) (ingredients : IngredientsField)
    (recipes : List RecipeSummary)
    (h : (recipesByIngredients apiKey httpGet ingredients).body = .success recipes) :
    ∃ items results, ingredients = .array items ∧ items ≠ [] ∧
      (recipesByIngredients apiKey httpGet ingredients).calls =
        [.httpGet ("https://api.spoonacular.com/recipes/findByIngredients?ingredients=" ++
          ",".intercalate (items.map encodeURIComponent) ++ "&number=5&apiKey=" ++
          templateText apiKey)] ∧
      httpGet (searchUrl items apiKey) = .ok (some results) ∧
      recipes.length = results.length ∧
      (results.length ≤ 5 → recipes.length ≤ 5) := by
  cases ingredients with
  | array items =>
    cases items with
    | nil => simp [recipesByIngredients, IngredientsField.asArray] at h
    | cons item items =>
      rw [recipesByIngredients_of_array] at h ⊢
      cases hget : httpGet (searchUrl (item :: items) apiKey) with
      | error e => simp [hget] at h
      | ok data =>
        cases hp : projectRecipes data with
        | none => simp [hget, hp] at h
        | some rs =>
          simp only [hget, hp, SearchBody.success.injEq] at h
          subst h
          cases data with
          | none => simp [projectRecipes] at hp
          | some results =>
            have hlen : rs.length = results.length :=
              mapM_option_length projectRecipe results rs hp
            refine ⟨item :: items, results, rfl, by simp, ?_, hget, hlen,
              fun h5 => hlen ▸ h5⟩
            simp only [hp]
            rfl
  | _ => simp [recipesByIngredients, IngredientsField.asArray] at h

/-- C14: for every well-formed search response, the recipe-search handler answers 200 with
one summary per match, in the order of the response, with `id`, `title` and `image` copied
and the ingredient lists replaced by the lists of their names, of the same lengths; and
the pipeline, when it receives the same response to its own search call, answers with the
same recipes. -/
theorem recipesByIngredients_projection (apiKey : Option String)
    (httpGet : String → Except UpstreamError SearchData) (item : String)
    (items : List String) (ms : List WellFormedMatch)
    (hget : httpGet (searchUrl (item :: items) apiKey) = .ok (wellFormedPayload ms)) :
    recipesByIngredients apiKey httpGet (.array (item :: items)) =
      ⟨200, .success (ms.map summaryOf), [.httpGet (searchUrl (item :: items) apiKey)]⟩ ∧
    (ms.map summaryOf).length = ms.length ∧
    (∀ m ∈ ms, (summaryOf m).id = some m.id ∧ (summaryOf m).title = some m.title ∧
      (summaryOf m).image = some m.image ∧
      (summaryOf m).usedIngredients = m.usedIngredients.map some ∧
      (summaryOf m).missedIngredients = m.missedIngredients.map some ∧
      (summaryOf m).usedIngredients.length = m.usedIngredients.length ∧
      (summaryOf m).missedIngredients.length = m.missedIngredients.length) ∧
    (∀ (env : AnalyzeEnv) (fs : Uploads) (path : String) (bytes : List UInt8)
      (data : VisionData) (labels : List Label) (key : String),
      readFileSync fs path = some bytes →
      env.visionPost (visionAnnotateUrl env.visionKey) bytes = .ok data →
      labelsOf data = some labels →
      ",".intercalate ((detectIngredients labels).map DetectedIngredient.name) ≠ "" →
      env.spoonacularKey = some key → key ≠ "" →
      env.httpGet (pipelineSearchUrl
        (",".intercalate ((detectIngredients labels).map DetectedIngredient.name)) key) =
          .ok (wellFormedPayload ms) →
      (analyzeIngredients env fs (some path)).status = 200 ∧
      (analyzeIngredients env fs (some path)).body =
        .success (detectIngredients labels) (ms.map summaryOf)) := by
  refine ⟨?_, by simp, ?_, ?_⟩
  · rw [recipesByIngredients_of_array, hget]
    simp only [projectRecipes_wellFormed]
  · intro m _
    simp [summaryOf]
  · intro env fs path bytes data labels key hread hvision hlabels hjoin hkey hkeyne hget2
    have hcond : (",".intercalate ((detectIngredients labels).map DetectedIngredient.name)
        != "" && truthyStr env.spoonacularKey) = true := by
      simp [hjoin, hkey, truthyStr, hkeyne]
    have hkeytext : templateText env.spoonacularKey = key := by simp [hkey, templateText]
    rw [analyzeIngredients_of_labels env fs path bytes data labels hread hvision hlabels,
      if_pos hcond, hkeytext, hget2]
    simp only [projectRecipes_wellFormed, and_self]


/-! ## URL escaping of ingredient lists -/

theorem encodeURIComponent_append (a b : String) :
    encodeURIComponent (a ++ b) = encodeURIComponent a ++ encodeURIComponent b := by
  obtain ⟨a⟩ := a
  obtain ⟨b⟩ := b
  show String.mk _ = String.mk _ ++ String.mk _
  have : (String.mk a ++ String.mk b).toList = a ++ b := rfl
  rw [this, List.flatMap_append]
  rfl

theorem intercalate_go_encode (l : List String) : ∀ acc : String,
    encodeURIComponent (String.intercalate.go acc "," l) =
      String.intercalate.go (encodeURIComponent acc) "%2C" (l.map encodeURIComponent) := by
  induction l with
  | nil => intro acc; rfl
  | cons a rest ih =>
    intro acc
    simp only [String.intercalate.go, List.map_cons]
    rw [ih, encodeURIComponent_append, encodeURIComponent_append]
    rfl

/-- Escaping the comma-joined list joins the escaped names with the escaped comma. -/
theorem encodeURIComponent_intercalate (names : List String) :
    encodeURIComponent (",".intercalate names) =
      "%2C".intercalate (names.map encodeURIComponent) := by
  cases names with
  | nil => rfl
  | cons a rest => exact intercalate_go_encode rest a

theorem intercalate_go_length (sep : String) (l : List String) : ∀ acc : String,
    (String.intercalate.go acc sep l).length =
      acc.length + l.length * sep.length + (l.map String.length).sum := by
  induction l with
  | nil => intro acc; simp [String.intercalate.go]
  | cons a rest ih =>
    intro acc
    simp only [String.intercalate.go, ih, String.length_append, List.length_cons, List.map_cons,
      List.sum_cons]
    ring

theorem intercalate_length_lt (l : List String) (h : 2 ≤ l.length) :
    (",".intercalate l).length < ("%2C".intercalate l).length := by
  match l, h with
  | a :: b :: rest, _ =>
    simp only [String.intercalate, intercalate_go_length]
    have h1 : ",".length = 1 := rfl
    have h3 : "%2C".length = 3 := rfl
    rw [h1, h3]
    simp only [List.length_cons]
    omega


/-! ## Escaping in the two search queries -/

/-- C17 as stated fails: for the names egg and milk the pipeline asks for
`ingredients=egg%2Cmilk` and the recipe-search handler for `ingredients=egg,milk`; both
ask for `number=5`. -/
theorem pipeline_search_query_differs :
    pipelineSearchUrl (",".intercalate ["egg", "milk"]) "SK" =
      "https://api.spoonacular.com/recipes/findByIngredients?ingredients=egg%2Cmilk&number=5&apiKey=SK" ∧
    searchUrl ["egg", "milk"] (some "SK") =
      "https://api.spoonacular.com/recipes/findByIngredients?ingredients=egg,milk&number=5&apiKey=SK" ∧
    encodeURIComponent (",".intercalate ["egg", "milk"]) ≠
      ",".intercalate (["egg", "milk"].map encodeURIComponent) := by
  decide

/-- C17, amended: for every list of names and every key, both handlers request
`number=5`; the ingredients parameter of the pipeline is the individually escaped names
joined with the escaped comma `%2C`, that of the recipe-search handler is the same escaped
names joined with a plain comma; for a single name the two URLs are equal, and for two or
more names they differ. -/
theorem pipeline_search_query (names : List String) (key : String) :
    pipelineSearchUrl (",".intercalate names) key =
      "https://api.spoonacular.com/recipes/findByIngredients?ingredients=" ++
        "%2C".intercalate (names.map encodeURIComponent) ++ "&number=5&apiKey=" ++ key ∧
    searchUrl names (some key) =
      "https://api.spoonacular.com/recipes/findByIngredients?ingredients=" ++
        ",".intercalate (names.map encodeURIComponent) ++ "&number=5&apiKey=" ++ key ∧
    (names.length = 1 →
      pipelineSearchUrl (",".intercalate names) key = searchUrl names (some key)) ∧
    (2 ≤ names.length →
      encodeURIComponent (",".intercalate names) ≠
        ",".intercalate (names.map encodeURIComponent) ∧
      pipelineSearchUrl (",".intercalate names) key ≠ searchUrl names (some key)) := by
  have hp : pipelineSearchUrl (",".intercalate names) key =
      "https://api.spoonacular.com/recipes/findByIngredients?ingredients=" ++
        "%2C".intercalate (names.map encodeURIComponent) ++ "&number=5&apiKey=" ++ key := by
    unfold pipelineSearchUrl
    rw [encodeURIComponent_intercalate]
  have hs : searchUrl names (some key) =
      "https://api.spoonacular.com/recipes/findByIngredients?ingredients=" ++
        ",".intercalate (names.map encodeURIComponent) ++ "&number=5&apiKey=" ++ key := rfl
  refine ⟨hp, hs, ?_, ?_⟩
  · intro h1
    match names, h1 with
    | [a], _ => rw [hp, hs]; rfl
  · intro h2
    have hlt := intercalate_length_lt (names.map encodeURIComponent) (by simpa using h2)
    constructor
    · rw [encodeURIComponent_intercalate]
      intro hc
      rw [hc] at hlt
      exact lt_irrefl _ hlt
    · rw [hp, hs]
      intro hc
      have := congrArg String.length hc
      simp only [String.length_append] at this
      omega

/-! ## Presence checks of the add handler -/

/-- C16 as stated fails: an add whose `recipeId` is present and equal to 0, and an add
whose `title` is present and empty, are answered with 400 and insert nothing. -/
theorem postFavorites_zero_recipeId_rejected :
    postFavorites none 20 sampleTable ⟨some "u1", some 0, some "Stew", none, none, none⟩ =
      ⟨400, .error "Missing required fields", sampleTable⟩ ∧
    postFavorites none 20 sampleTable ⟨some "u1", some 9, some "", none, none, none⟩ =
      ⟨400, .error "Missing required fields", sampleTable⟩ := by
  decide

/-- C16, amended: when `userId`, `recipeId` and `title` are all present, the add handler
answers 400 exactly when one of them is falsy (an empty `userId` or `title`, a `recipeId`
of zero), and then inserts nothing; when none is falsy it does not answer 400 but goes on
to the insert, whatever the values otherwise are: with the store raising no error the
answer is 201 and the table is the prior table with the new row appended, and with a store
error the answer is 500. -/
theorem postFavorites_presence_only (fault : Option String) (now : Nat) (t : FavoritesTable)
    (body : AddBody) (u : String) (r : Int) (ti : String)
    (hu : body.userId = some u) (hr : body.recipeId = some r) (ht : body.title = some ti) :
    ((u = "" ∨ r = 0 ∨ ti = "") →
      postFavorites fault now t body = ⟨400, .error "Missing required fields", t⟩) ∧
    (u ≠ "" → r ≠ 0 → ti ≠ "" →
      (postFavorites fault now t body).status ≠ 400 ∧
      (fault = none →
        postFavorites fault now t body =
          ⟨201, .favorite ⟨t.nextId, u, r, ti, body.image, body.cookTime, body.servings, now⟩,
            ⟨t.rows ++ [⟨t.nextId, u, r, ti, body.image, body.cookTime, body.servings, now⟩],
              t.nextId + 1⟩⟩) ∧
      (∀ e, fault = some e →
        postFavorites fault now t body = ⟨500, .error "Something went wrong", t⟩)) := by
  constructor
  · intro h
    unfold postFavorites
    rcases h with h | h | h <;> simp [hu, hr, ht, h, truthyStr, truthyInt]
  · intro hune hrne htne
    have hpost : postFavorites fault now t body =
        match dbInsertReturning fault now t
            ⟨u, r, ti, body.image, body.cookTime, body.servings⟩ with
        | .ok (t2, newFavorite) => ⟨201, .favorite newFavorite, t2⟩
        | .error _ => ⟨500, .error "Something went wrong", t⟩ := by
      unfold postFavorites
      simp [hu, hr, ht, truthyStr, truthyInt, hune, hrne, htne]
    rw [hpost]
    cases fault with
    | none => simp [dbInsertReturning]
    | some e => simp [dbInsertReturning]


/-! ## Failure answers do not depend on the error -/

theorem sameUpToError_cases {α : Type} (a b : Except UpstreamError α)
    (h : sameUpToError a b) :
    (∃ e1 e2, a = .error e1 ∧ b = .error e2) ∨ (∃ x, a = .ok x ∧ b = .ok x) := by
  cases a with
  | error e1 =>
    cases b with
    | error e2 => exact Or.inl ⟨e1, e2, rfl, rfl⟩
    | ok y => exact absurd h (by simp [sameUpToError])
  | ok x =>
    cases b with
    | error e2 => exact absurd h (by simp [sameUpToError])
    | ok y =>
      have : x = y := h
      subst this
      exact Or.inr ⟨x, rfl, rfl⟩

theorem analyzeIngredients_status_500 (env : AnalyzeEnv) (fs : Uploads)
    (file : Option String) (h : (analyzeIngredients env fs file).status = 500) :
    (analyzeIngredients env fs file).body =
      .failure "Failed to analyze image or fetch recipes" := by
  cases file with
  | none => simp [analyzeIngredients] at h
  | some path =>
    cases hread : readFileSync fs path with
    | none => simp [analyzeIngredients, hread, analyzeFailed]
    | some bytes =>
      cases hvision : env.visionPost (visionAnnotateUrl env.visionKey) bytes with
      | error e => simp [analyzeIngredients, hread, hvision, analyzeFailed]
      | ok data =>
        cases hlabels : labelsOf data with
        | none =>
          simp [analyzeIngredients, hread, hvision, hlabels, analyzeFailed,
            unlinkSync_of_read fs path bytes hread]
        | some labels =>
          rw [analyzeIngredients_of_labels env fs path bytes data labels hread hvision hlabels]
            at h ⊢
          by_cases hc : (",".intercalate ((detectIngredients labels).map DetectedIngredient.name)
              != "" && truthyStr env.spoonacularKey) = true
          · rw [if_pos hc] at h ⊢
            cases hget : env.httpGet (pipelineSearchUrl
                (",".intercalate ((detectIngredients labels).map DetectedIngredient.name))
                (templateText env.spoonacularKey)) with
            | error e => rfl
            | ok searchData =>
              cases hproj : projectRecipes searchData with
              | none => simp only [hproj]; rfl
              | some recipes => simp [hget, hproj] at h
          · rw [if_neg hc] at h
            simp at h

theorem analyzeIngredients_congr (vk sk : Option String)
    (v1 v2 : String → List UInt8 → Except UpstreamError VisionData)
    (g1 g2 : String → Except UpstreamError SearchData) (fs : Uploads) (file : Option String)
    (hv : ∀ u b, sameUpToError (v1 u b) (v2 u b)) (hg : ∀ u, sameUpToError (g1 u) (g2 u)) :
    analyzeIngredients ⟨vk, sk, v1, g1⟩ fs file = analyzeIngredients ⟨vk, sk, v2, g2⟩ fs file := by
  cases file with
  | none => rfl
  | some path =>
    cases hread : readFileSync fs path with
    | none => simp [analyzeIngredients, hread]
    | some bytes =>
      rcases sameUpToError_cases _ _ (hv (visionAnnotateUrl vk) bytes) with
        ⟨e1, e2, h1, h2⟩ | ⟨data, h1, h2⟩
      · simp [analyzeIngredients, hread, h1, h2]
      · cases hlabels : labelsOf data with
        | none =>
          simp [analyzeIngredients, hread, h1, h2, hlabels]
        | some labels =>
          rw [analyzeIngredients_of_labels ⟨vk, sk, v1, g1⟩ fs path bytes data labels hread h1
              hlabels,
            analyzeIngredients_of_labels ⟨vk, sk, v2, g2⟩ fs path bytes data labels hread h2
              hlabels]
          split
          · rcases sameUpToError_cases _ _ (hg (pipelineSearchUrl
                (",".intercalate ((detectIngredients labels).map DetectedIngredient.name))
                (templateText sk))) with ⟨e1, e2, h1, h2⟩ | ⟨sd, h1, h2⟩
            · simp only [h1, h2]
            · simp only [h1, h2]
          · rfl


/-- C15: upstream error detail is never echoed.  For each endpoint, two runs that differ
only in the error raised by the store or by a downstream service give the same answer,
and every 500 answer carries the message fixed for the endpoint. -/
theorem upstream_error_not_echoed :
    (∀ (e1 e2 : String) now t body,
      postFavorites (some e1) now t body = postFavorites (some e2) now t body) ∧
    (∀ fault now t body, (postFavorites fault now t body).status = 500 →
      (postFavorites fault now t body).body = .error "Something went wrong") ∧
    (∀ (e1 e2 : String) t userId,
      getFavorites (some e1) t userId = getFavorites (some e2) t userId) ∧
    (∀ fault t userId, (getFavorites fault t userId).status = 500 →
      (getFavorites fault t userId).body = .error "Something went wrong") ∧
    (∀ (e1 e2 : String) t userId recipeId,
      deleteFavorite (some e1) t userId recipeId =
        deleteFavorite (some e2) t userId recipeId) ∧
    (∀ fault t userId recipeId, (deleteFavorite fault t userId recipeId).status = 500 →
      (deleteFavorite fault t userId recipeId).body = .error "Something went wrong") ∧
    (∀ key (p1 p2 : String → String → Except UpstreamError GeminiPayload) message,
      (∀ u m, sameUpToError (p1 u m) (p2 u m)) →
      chatbot ⟨key, p1⟩ message = chatbot ⟨key, p2⟩ message) ∧
    (∀ env message, (chatbot env message).status = 500 →
      (chatbot env message).body = .error "Failed to get response from Gemini") ∧
    (∀ vk sk (v1 v2 : String → List UInt8 → Except UpstreamError VisionData)
      (g1 g2 : String → Except UpstreamError SearchData) fs file,
      (∀ u b, sameUpToError (v1 u b) (v2 u b)) → (∀ u, sameUpToError (g1 u) (g2 u)) →
      analyzeIngredients ⟨vk, sk, v1, g1⟩ fs file =
        analyzeIngredients ⟨vk, sk, v2, g2⟩ fs file) ∧
    (∀ env fs file, (analyzeIngredients env fs file).status = 500 →
      (analyzeIngredients env fs file).body =
        .failure "Failed to analyze image or fetch recipes") ∧
    (∀ key (g1 g2 : String → Except UpstreamError SearchData) ingredients,
      (∀ u, sameUpToError (g1 u) (g2 u)) →
      recipesByIngredients key g1 ingredients = recipesByIngredients key g2 ingredients) ∧
    (∀ key g ingredients, (recipesByIngredients key g ingredients).status = 500 →
      (recipesByIngredients key g ingredients).body = .failure "Failed to fetch recipes") ∧
    (∀ key (g1 g2 : String → Except UpstreamError String) id,
      (∀ u, sameUpToError (g1 u) (g2 u)) →
      recipeDetail key g1 id = recipeDetail key g2 id) ∧
    (∀ key g id, (recipeDetail key g id).status = 500 →
      (recipeDetail key g id).body = .failure "Failed to fetch recipe details") := by
  refine ⟨?_, ?_, ?_, ?_, ?_, ?_, ?_, ?_, analyzeIngredients_congr,
    analyzeIngredients_status_500, ?_, ?_, ?_, ?_⟩
  · intro e1 e2 now t body
    unfold postFavorites
    split
    · rfl
    · split <;> rfl
  · intro fault now t body h
    unfold postFavorites at h ⊢
    split at h
    · simp at h
    · split at h
      · split at h
        · simp at h
        · simp_all
      · simp at h
  · intro e1 e2 t userId
    rfl
  · intro fault t userId h
    cases fault with
    | none => simp [getFavorites, dbSelectByUser] at h
    | some e => rfl
  · intro e1 e2 t userId recipeId
    rfl
  · intro fault t userId recipeId h
    cases fault with
    | some e => rfl
    | none =>
      cases hp : integerKey (parseInt recipeId) with
      | none => rw [deleteFavorite_of_no_key t userId recipeId hp]
      | some n =>
        rw [deleteFavorite_of_key t userId recipeId n hp] at h
        simp at h
  · intro key p1 p2 message hp
    unfold chatbot
    split
    · rfl
    · rcases sameUpToError_cases _ _ (hp (geminiUrl key) (templateText message)) with
        ⟨e1, e2, h1, h2⟩ | ⟨x, h1, h2⟩
      · unfold geminiUrl at h1 h2
        simp only [h1, h2]
      · unfold geminiUrl at h1 h2
        simp only [h1, h2]
  · intro env message h
    by_cases hc : (!truthyStr message) = true
    · simp [chatbot, hc] at h
    · cases hpost : env.geminiPost (geminiUrl env.geminiKey) (templateText message) with
      | error e =>
        unfold geminiUrl at hpost
        simp [chatbot, hc, hpost]
      | ok payload =>
        unfold geminiUrl at hpost
        cases hcand : payloadCandidates payload with
        | none => simp [chatbot, hc, hpost, hcand]
        | some data => simp [chatbot, hc, hpost, hcand] at h
  · intro key g1 g2 ingredients hg
    cases ingredients with
    | array items =>
      cases items with
      | nil => rfl
      | cons item items =>
        rw [recipesByIngredients_of_array, recipesByIngredients_of_array]
        rcases sameUpToError_cases _ _ (hg (searchUrl (item :: items) key)) with
          ⟨e1, e2, h1, h2⟩ | ⟨x, h1, h2⟩
        · simp only [h1, h2]
        · simp only [h1, h2]
    | _ => rfl
  · intro key g ingredients h
    cases ingredients with
    | array items =>
      cases items with
      | nil => simp [recipesByIngredients, IngredientsField.asArray] at h
      | cons item items =>
        rw [recipesByIngredients_of_array] at h ⊢
        cases hget : g (searchUrl (item :: items) key) with
        | error e => rfl
        | ok data =>
          cases hproj : projectRecipes data with
          | none => simp only [hproj]
          | some recipes => simp [hget, hproj] at h
    | _ => simp [recipesByIngredients, IngredientsField.asArray] at h
  · intro key g1 g2 id hg
    unfold recipeDetail
    rcases sameUpToError_cases _ _ (hg (recipeDetailUrl id key)) with
      ⟨e1, e2, h1, h2⟩ | ⟨x, h1, h2⟩
    · simp only [h1, h2]
    · simp only [h1, h2]
  · intro key g id h
    unfold recipeDetail at h ⊢
    split at h
    · simp at h
    · simp_all

/-! ## The recipe detail screen: the claim -/

/-- C18: for every instructions string, the stripped text has no substring made of a `<`,
one or more characters other than `>`, and a `>`; stripping it again changes nothing; it
is obtained from the instructions by deleting characters only; a string without `<` is
returned unchanged; and the text the screen shows, when it shows the section, is the
stripped text. -/
theorem stripTags_spec (instructions : String) :
    ¬ HasTag (stripTags instructions).toList ∧
    stripTags (stripTags instructions) = stripTags instructions ∧
    List.Sublist (stripTags instructions).toList instructions.toList ∧
    ('<' ∉ instructions.toList → stripTags instructions = instructions) ∧
    (∀ text, shownInstructions (some instructions) = some text →
      text = stripTags instructions ∧ ¬ HasTag text.toList) := by
  have hno : ¬ HasTag (stripTags instructions).toList := by
    intro h
    have h1 : hasTagB (stripTagsFrom 0 instructions.toList) = true := (hasTagB_iff _).mpr h
    rw [hasTagB_stripTagsFrom] at h1
    exact Bool.false_ne_true h1
  refine ⟨hno, ?_, stripTagsFrom_sublist _ 0, ?_, ?_⟩
  · unfold stripTags
    simp only [String.toList]
    rw [stripTagsFrom_of_not_hasTagB _ (hasTagB_stripTagsFrom _)]
  · intro h
    unfold stripTags
    rw [stripTagsFrom_of_no_lt _ h]
    rfl
  · intro text h
    unfold shownInstructions at h
    split at h
    · injection h with h
      subst h
      exact ⟨rfl, hno⟩
    · cases h


/-! ## Witnesses for the proxy endpoints and the detail screen -/

/-- The greeting of the first candidate is the reply; with no candidates, and with a
payload that is a text, the reply is the fallback; all three answers are 200. -/
theorem chatbot_reply_witness :
    ((chatbot greetingChatEnv (some "hello")).status = 200 ∧
      (chatbot greetingChatEnv (some "hello")).body = .reply "Hi!") ∧
    ((chatbot sampleChatEnv (some "hello")).status = 200 ∧
      (chatbot sampleChatEnv (some "hello")).body =
        .reply "Sorry, I couldn't understand that.") ∧
    ((chatbot ⟨some "GK", fun _ _ => .ok .other⟩ (some "hello")).status = 200 ∧
      (chatbot ⟨some "GK", fun _ _ => .ok .other⟩ (some "hello")).body =
        .reply "Sorry, I couldn't understand that.") :=
  have h1 := chatbot_reply greetingChatEnv "hello" (.object greetingData) (by decide) rfl
    (by decide)
  have h2 := chatbot_reply sampleChatEnv "hello" (.object ⟨some []⟩) (by decide) rfl
    (by decide)
  have h3 := chatbot_reply ⟨some "GK", fun _ _ => .ok .other⟩ "hello" .other (by decide) rfl
    (by decide)
  ⟨⟨h1.1, (h1.2.1 greetingData rfl).1 "Hi!" ⟨_, _, _, _, _, rfl, rfl, rfl, rfl⟩ (by decide)⟩,
    ⟨h2.1, (h2.2.1 ⟨some []⟩ rfl).2 (fun t ht => by
      obtain ⟨c, cs, ct, p, ps, hc, _⟩ := ht
      simp at hc)⟩,
    ⟨h3.1, h3.2.2 rfl⟩⟩

/-- A string in place of the array is refused without a call, and the array of egg and
milk passes the validation. -/
theorem recipesByIngredients_validation_witness :
    recipesByIngredients (some "SK") (fun _ => .ok (some [])) (.string "egg, milk") =
      ⟨400, .failure "Ingredients array is required", []⟩ ∧
    (recipesByIngredients (some "SK") (fun _ => .ok (some [])) (.array ["egg", "milk"])).status
      ≠ 400 ∧
    (recipesByIngredients (some "SK") (fun _ => .ok (some [])) (.array ["egg", "milk"])).calls =
      [.httpGet (searchUrl ["egg", "milk"] (some "SK"))] :=
  ⟨(recipesByIngredients_validation (some "SK") (fun _ => .ok (some [])) (.string "egg, milk")).1
      (Or.inr (Or.inl (fun _ h => by cases h))),
    (recipesByIngredients_validation (some "SK") (fun _ => .ok (some []))
      (.array ["egg", "milk"])).2 "egg" ["milk"] rfl⟩

/-- With one match returned, the handler answers with one recipe. -/
theorem recipesByIngredients_length_witness :
    (recipesByIngredients (some "SK") (fun _ => .ok (some [some sampleMatch]))
        (.array ["egg", "milk"])).body =
      .success [⟨some 1, some "Pie", none, [some "apple"], [some "flour"]⟩] ∧
    ∃ items results, IngredientsField.array ["egg", "milk"] = .array items ∧ items ≠ [] ∧
      (recipesByIngredients (some "SK") (fun _ => .ok (some [some sampleMatch]))
          (.array ["egg", "milk"])).calls =
        [.httpGet ("https://api.spoonacular.com/recipes/findByIngredients?ingredients=" ++
          ",".intercalate (items.map encodeURIComponent) ++ "&number=5&apiKey=" ++
          templateText (some "SK"))] ∧
      (fun _ => (.ok (some [some sampleMatch]) : Except UpstreamError SearchData))
        (searchUrl items (some "SK")) = .ok (some results) ∧
      [(⟨some 1, some "Pie", none, [some "apple"], [some "flour"]⟩ : RecipeSummary)].length =
        results.length ∧
      (results.length ≤ 5 →
        [(⟨some 1, some "Pie", none, [some "apple"], [some "flour"]⟩ : RecipeSummary)].length
          ≤ 5) :=
  ⟨by decide, recipesByIngredients_length (some "SK") (fun _ => .ok (some [some sampleMatch]))
    (.array ["egg", "milk"]) [⟨some 1, some "Pie", none, [some "apple"], [some "flour"]⟩]
    (by decide)⟩

/-- The two sample matches are projected to their two summaries, in order. -/
theorem recipesByIngredients_projection_witness :
    recipesByIngredients (some "SK") (fun _ => .ok (wellFormedPayload sampleMatches))
        (.array ["egg", "milk"]) =
      ⟨200, .success
        [⟨some 11, some "Omelette", some "http://img/omelette.png", [some "egg", some "milk"],
            [some "butter"]⟩,
          ⟨some 12, some "Custard", some "http://img/custard.png", [some "egg", some "milk"],
            [some "sugar", some "vanilla"]⟩],
        [.httpGet (searchUrl ["egg", "milk"] (some "SK"))]⟩ :=
  (recipesByIngredients_projection (some "SK") (fun _ => .ok (wellFormedPayload sampleMatches))
    "egg" ["milk"] sampleMatches rfl).1

/-- A timeout and a rejected key give the same chatbot answer, the fixed 500 failure. -/
theorem upstream_error_not_echoed_witness :
    chatbot ⟨some "GK", fun _ _ => .error ⟨"timeout of 0ms exceeded", none⟩⟩ (some "hello") =
      chatbot ⟨some "GK", fun _ _ =>
        .error ⟨"Request failed with status code 400", some "API key not valid: GK"⟩⟩
        (some "hello") ∧
    (chatbot ⟨some "GK", fun _ _ =>
        .error ⟨"Request failed with status code 400", some "API key not valid: GK"⟩⟩
        (some "hello")).body = .error "Failed to get response from Gemini" :=
  ⟨upstream_error_not_echoed.2.2.2.2.2.2.1 (some "GK") _ _ (some "hello")
      (fun _ _ => trivial),
    upstream_error_not_echoed.2.2.2.2.2.2.2.1 _ (some "hello") (by decide)⟩

/-- The complete sample add is not answered with 400: it is answered with 201 and its row
is appended. -/
theorem postFavorites_presence_only_witness :
    (postFavorites none 20 sampleTable sampleAdd).status ≠ 400 ∧
    postFavorites none 20 sampleTable sampleAdd =
      ⟨201, .favorite ⟨5, "u1", 9, "Stew", some "http://img/stew.png", some 25, none, 20⟩,
        ⟨sampleTable.rows ++
            [⟨5, "u1", 9, "Stew", some "http://img/stew.png", some 25, none, 20⟩], 6⟩⟩ :=
  have h := (postFavorites_presence_only none 20 sampleTable sampleAdd "u1" 9 "Stew"
    rfl rfl rfl).2 (by decide) (by decide) (by decide)
  ⟨h.1, h.2.1 rfl⟩

/-- For one name the two URLs agree; for egg and milk they differ. -/
theorem pipeline_search_query_witness :
    pipelineSearchUrl (",".intercalate ["green bean"]) "SK" =
      searchUrl ["green bean"] (some "SK") ∧
    pipelineSearchUrl (",".intercalate ["egg", "milk"]) "SK" ≠
      searchUrl ["egg", "milk"] (some "SK") :=
  ⟨(pipeline_search_query ["green bean"] "SK").2.2.1 rfl,
    ((pipeline_search_query ["egg", "milk"] "SK").2.2.2 (by decide)).2⟩

/-- Instructions with markup are shown without it, and plain instructions as they are. -/
theorem stripTags_spec_witness :
    stripTags "<ol><li>Mix <b>well</b>.</li></ol>" = "Mix well." ∧
    ¬ HasTag (stripTags "<ol><li>Mix <b>well</b>.</li></ol>").toList ∧
    stripTags "Mix well. Bake at 180 > 170." = "Mix well. Bake at 180 > 170." :=
  ⟨by decide, (stripTags_spec "<ol><li>Mix <b>well</b>.</li></ol>").1,
    (stripTags_spec "Mix well. Bake at 180 > 170.").2.2.2.1 (by decide)⟩


/-! ## Witnesses for the remove handler -/

/-- On the sample table, removing recipe 7 of user `u1` leaves the rows of other users and
other recipes. -/
theorem deleteFavorite_deletes_all_matching_witness :
    (7 : Int).natAbs < 2 ^ 53 ∧
    deleteFavorite none sampleTable "u1" (intDecimal 7) =
      ⟨200, .message "Favorite removed successfully",
        ⟨sampleTable.rows.filter (fun r => decide (¬ (r.userId = "u1" ∧ r.recipeId = 7))),
          sampleTable.nextId⟩⟩ ∧
    ∀ r ∈ (deleteFavorite none sampleTable "u1" (intDecimal 7)).table.rows,
      ¬ (r.userId = "u1" ∧ r.recipeId = 7) :=
  have h := deleteFavorite_deletes_all_matching sampleTable "u1" 7 (by decide)
  ⟨by decide, h.1, h.2.1⟩

/-- On the sample table, removing recipe 7 of user `u1` twice answers 200 both times. -/
theorem deleteFavorite_idempotent_witness :
    (7 : Int).natAbs < 2 ^ 53 ∧
    (deleteFavorite none sampleTable "u1" (intDecimal 7)).status = 200 ∧
    deleteFavorite none (deleteFavorite none sampleTable "u1" (intDecimal 7)).table "u1"
        (intDecimal 7) =
      ⟨200, .message "Favorite removed successfully",
        (deleteFavorite none sampleTable "u1" (intDecimal 7)).table⟩ :=
  have h := (deleteFavorite_idempotent sampleTable "u1").2 7 (by decide)
  ⟨by decide, h.1, h.2.1⟩

end CookGenie
